import Mathlib

/-!
Shallow embedding of the SimSiPM SiPM Monte-Carlo simulator core
(`src/src/SiPMSensor.cpp`, `src/src/SiPMSimulator.cpp`, with the class layout
from `src/include/SiPMSensor.h`).

Modelling conventions:
* C++ `double` is modelled as `ℚ` (exact arithmetic); the C library's `exp`
  is an explicit function parameter `e : ℚ → ℚ` threaded through the code.
* `SiPMRandom` is not part of `src/`; it is modelled from the spec's PRNG
  contract (uniform() in [0,1), integer(max) in [0,max], exponential(mean)
  nonnegative, gaussian(mu,sigma)) as a finite stream of rational draws that
  is consumed left to right.  When the stream runs out a pass stops; every
  theorem quantifies over all streams, so this truncation only ever shortens
  a run, never changes what a performed step does.
* C++ `double`→`int32_t` conversion truncates toward zero (`truncZ`).
-/

namespace SimSiPM

inductive HitType where
  | kPhotoelectron
  | kDarkCount
  | kOpticalCrosstalk
  | kAfterPulse
deriving DecidableEq, Repr

inductive HitDist where
  | kUniform
  | kCircle
  | kGaussian
deriving DecidableEq, Repr

inductive PdeType where
  | kNoPde
  | kSimplePde
  | kSpectrumPde
deriving DecidableEq, Repr

/-- Modelled from the spec: the read-only parameter store `SiPMProperties`
(its source is not under `src/`); fields are the getters the sensor code
reads (`nSideCells`, `sampling`, `signalLength`, shape constants, noise
rates and flags, PDE configuration, hit distribution selector). -/
structure SiPMProperties where
  nSideCells : ℕ
  sampling : ℚ
  signalLength : ℚ
  risingTime : ℚ
  fallingTimeFast : ℚ
  fallingTimeSlow : ℚ
  slowComponentFraction : ℚ
  hasSlowComponent : Bool
  hasDcr : Bool
  hasXt : Bool
  hasAp : Bool
  dcr : ℚ
  xt : ℚ
  ap : ℚ
  tauApFast : ℚ
  tauApSlow : ℚ
  apSlowFraction : ℚ
  recoveryTime : ℚ
  pdeType : PdeType
  pde : ℚ
  pdeSpectrum : List (ℚ × ℚ)
  hitDistribution : HitDist
  ccgv : ℚ
  snrLinear : ℚ
deriving DecidableEq, Repr

/-- Modelled from the spec: `N = L / Δt` samples (the `nSignalPoints()`
getter of the parameter store, whose source is not under `src/`). -/
def nSignalPoints (p : SiPMProperties) : ℕ :=
  (⌊p.signalLength / p.sampling⌋).toNat

/-- The hit value type (`SiPMHit.h` is not under `src/`; fields are the ones
the sensor code reads and writes: time, amplitude, row, col, origin tag). -/
structure SiPMHit where
  time : ℚ
  amplitude : ℚ
  row : ℤ
  col : ℤ
  htype : HitType
deriving DecidableEq, Repr

instance : Inhabited SiPMHit := ⟨⟨0, 0, 0, 0, .kPhotoelectron⟩⟩

/-- Modelled from the spec: the derived cell id `row·nSideCells + col`. -/
def hitId (m : ℕ) (h : SiPMHit) : ℤ := h.row * m + h.col

/-- The PRNG draw stream (see the module comment). -/
abbrev Rng := List ℚ

/-- Modelled from the spec: `uniform() → [0,1)`; the draw is the fractional
part of the next stream value. -/
def fract (q : ℚ) : ℚ := Int.fract q

/-- Modelled from the spec: `integer(max) → [0,max]`; the draw is the next
stream value reduced into the admissible range. -/
def natDraw (v : ℚ) (mx : ℕ) : ℕ := (⌊v⌋).toNat % (mx + 1)

/-- Modelled from the spec: `exponential(mean)` has support `[0,∞)`; the
draw is the next stream value scaled by the mean, made nonnegative. -/
def expDraw (mean v : ℚ) : ℚ := |mean * v|

/-- C++ `double` → `int32_t` conversion (truncation toward zero). -/
def truncZ (q : ℚ) : ℤ := if 0 ≤ q then ⌊q⌋ else -⌊-q⌋

/-- The sensor's mutable state (the private data members of `SiPMSensor`). -/
structure SensorState where
  photonTimes : List ℚ
  photonWavelengths : List ℚ
  hits : List SiPMHit
  hitsGraph : List ℤ
  nTotalHits : ℕ
  nPe : ℕ
  nDcr : ℕ
  nXt : ℕ
  nAp : ℕ
  signal : List ℚ
deriving DecidableEq, Repr

/-- A freshly constructed sensor: all buffers empty, all counters zero. -/
def sensorInit : SensorState := ⟨[], [], [], [], 0, 0, 0, 0, 0, []⟩

/-- `SiPMSensor::resetState` (src/src/SiPMSensor.cpp:61-72).  Note that the
source does not touch `m_HitsGraph`. -/
def resetState (s : SensorState) : SensorState :=
  { s with nTotalHits := 0, nPe := 0, nDcr := 0, nXt := 0, nAp := 0,
           hits := [], photonTimes := [], photonWavelengths := [], signal := [] }

/-- `SiPMSensor::addPhoton(time)` (src/src/SiPMSensor.cpp:32). -/
def addPhoton (s : SensorState) (t : ℚ) : SensorState :=
  { s with photonTimes := s.photonTimes ++ [t] }

/-- `SiPMSensor::addPhoton(time, wavelength)` (src/src/SiPMSensor.cpp:34-37). -/
def addPhotonWl (s : SensorState) (t wl : ℚ) : SensorState :=
  { s with photonTimes := s.photonTimes ++ [t],
           photonWavelengths := s.photonWavelengths ++ [wl] }

/-- `SiPMSensor::addPhotons(times)` (src/src/SiPMSensor.cpp:39): assignment,
not append, and the wavelength list is not touched. -/
def addPhotons (s : SensorState) (ts : List ℚ) : SensorState :=
  { s with photonTimes := ts }

/-- `SiPMSensor::addPhotons(times, wavelengths)` (src/src/SiPMSensor.cpp:41-44). -/
def addPhotonsWl (s : SensorState) (ts ws : List ℚ) : SensorState :=
  { s with photonTimes := ts, photonWavelengths := ws }

/-- Appending a hit together with the counter increments that every
generation pass performs at its `emplace_back` sites. -/
def pushHit (s : SensorState) (h : SiPMHit) : SensorState :=
  { s with hits := s.hits ++ [h],
           nTotalHits := s.nTotalHits + 1,
           nPe := if h.htype = .kPhotoelectron then s.nPe + 1 else s.nPe,
           nDcr := if h.htype = .kDarkCount then s.nDcr + 1 else s.nDcr,
           nXt := if h.htype = .kOpticalCrosstalk then s.nXt + 1 else s.nXt,
           nAp := if h.htype = .kAfterPulse then s.nAp + 1 else s.nAp }

/-- `SiPMSensor::isInSensor` (src/src/SiPMSensor.cpp:117-120): the bound used
is `nSideCells() - 1` on both coordinates. -/
def isInSensor (p : SiPMProperties) (r c : ℤ) : Bool :=
  decide (0 ≤ r ∧ 0 ≤ c ∧ r < (p.nSideCells : ℤ) - 1 ∧ c < (p.nSideCells : ℤ) - 1)

/-- The rejection loops of `SiPMSensor::hitCell`'s Circle branch
(src/src/SiPMSensor.cpp:139-142 and 146-149): draw `x,y ∈ [-1,1]` until the
point is inside (`inside = true`) resp. outside the unit circle. -/
def circleSample (inside : Bool) : Rng → Option (ℚ × ℚ) × Rng
  | v1 :: v2 :: r =>
    let x := fract v1 * 2 - 1
    let y := fract v2 * 2 - 1
    if inside then
      if x * x + y * y > 1 then circleSample inside r else (some (x, y), r)
    else
      if x * x + y * y < 1 then circleSample inside r else (some (x, y), r)
  | _ => (none, [])

/-- `SiPMSensor::hitCell` (src/src/SiPMSensor.cpp:123-173).  The Uniform
branch draws both coordinates with `randInteger(nSideCells()-1)`; Circle
maps the accepted point by `(x+1)·(nSideCells()/2)` (integer division, then
`double`→`int32_t` truncation); Gaussian maps `(x+3)·(nSideCells()/6)` when
both draws are within 3 sigma and falls back to Uniform otherwise. -/
def hitCell (p : SiPMProperties) (rng : Rng) : Option (ℤ × ℤ) × Rng :=
  match p.hitDistribution with
  | .kUniform =>
    match rng with
    | v1 :: v2 :: r =>
      (some ((natDraw v1 (p.nSideCells - 1) : ℤ), (natDraw v2 (p.nSideCells - 1) : ℤ)), r)
    | _ => (none, [])
  | .kCircle =>
    match rng with
    | v :: r =>
      let res := if fract v < 95 / 100 then circleSample true r else circleSample false r
      match res with
      | (some (x, y), r2) =>
        (some (truncZ ((x + 1) * (p.nSideCells / 2 : ℕ)), truncZ ((y + 1) * (p.nSideCells / 2 : ℕ))), r2)
      | (none, r2) => (none, r2)
    | _ => (none, [])
  | .kGaussian =>
    match rng with
    | v1 :: v2 :: r =>
      if |v1| < 3 ∧ |v2| < 3 then
        (some (truncZ ((v1 + 3) * (p.nSideCells / 6 : ℕ)), truncZ ((v2 + 3) * (p.nSideCells / 6 : ℕ))), r)
      else
        match r with
        | w1 :: w2 :: r2 =>
          (some ((natDraw w1 (p.nSideCells - 1) : ℤ), (natDraw w2 (p.nSideCells - 1) : ℤ)), r2)
        | _ => (none, [])
    | _ => (none, [])

/-- `SiPMSensor::evaluatePde` (src/src/SiPMSensor.cpp:103-114): linear
interpolation on the sorted spectrum, with `upper_bound` moved off the two
ends exactly as in the source. -/
def evaluatePde (spec : List (ℚ × ℚ)) (x : ℚ) : ℚ :=
  let n := spec.length
  let ub := (spec.findIdx? (fun kv => decide (x < kv.1))).getD n
  let i1 := if ub = n then n - 1 else ub
  let i2 := if i1 = 0 then 1 else i1
  let p1 := spec.getD i2 (0, 0)
  let p0 := spec.getD (i2 - 1) (0, 0)
  let w := (x - p0.1) / (p1.1 - p0.1)
  w * p1.2 + (1 - w) * p0.2

/-- The loop of `SiPMSensor::addDcrEvents` (src/src/SiPMSensor.cpp:195-206):
advance `last` by an exponential inter-arrival while `last < signalLength`;
each arrival strictly inside `(0, signalLength)` becomes a dark-count hit at
a uniformly drawn cell. -/
def dcrLoop (p : SiPMProperties) (meanDcr : ℚ) (last : ℚ) (s : SensorState) :
    Rng → SensorState × Rng
  | [] => (s, [])
  | v :: r =>
    if last < p.signalLength then
      let last2 := last + expDraw meanDcr v
      if 0 < last2 ∧ last2 < p.signalLength then
        match r with
        | w1 :: w2 :: r2 =>
          dcrLoop p meanDcr last2
            (pushHit s ⟨last2, 1, (natDraw w1 (p.nSideCells - 1) : ℤ),
              (natDraw w2 (p.nSideCells - 1) : ℤ), .kDarkCount⟩) r2
        | _ => (s, [])
      else
        dcrLoop p meanDcr last2 s r
    else (s, v :: r)

/-- `SiPMSensor::addDcrEvents` (src/src/SiPMSensor.cpp:187-207): the cursor
starts at `-100` ns and the mean inter-arrival is `1e9 / dcr`. -/
def addDcrEvents (p : SiPMProperties) (s : SensorState) (rng : Rng) :
    SensorState × Rng :=
  dcrLoop p (1000000000 / p.dcr) (-100) s rng

/-- The loop of `SiPMSensor::addPhotoelectrons` (src/src/SiPMSensor.cpp:210-256)
over the photon list, with the source's three PDE modes; a detected photon
gets a cell from `hitCell` and is appended with its own (unchecked) time. -/
def peLoop (p : SiPMProperties) : List ℚ → List ℚ → SensorState → Rng →
    SensorState × Rng
  | [], _, s, rng => (s, rng)
  | t :: ts, ws, s, rng =>
    match p.pdeType with
    | .kNoPde =>
      match hitCell p rng with
      | (some (r0, c0), rng2) =>
        peLoop p ts ws.tail (pushHit s ⟨t, 1, r0, c0, .kPhotoelectron⟩) rng2
      | (none, rng2) => (s, rng2)
    | .kSimplePde =>
      match rng with
      | [] => (s, [])
      | u :: rng1 =>
        if fract u < p.pde then
          match hitCell p rng1 with
          | (some (r0, c0), rng2) =>
            peLoop p ts ws.tail (pushHit s ⟨t, 1, r0, c0, .kPhotoelectron⟩) rng2
          | (none, rng2) => (s, rng2)
        else peLoop p ts ws.tail s rng1
    | .kSpectrumPde =>
      match rng with
      | [] => (s, [])
      | u :: rng1 =>
        if fract u < evaluatePde p.pdeSpectrum (ws.headD 0) then
          match hitCell p rng1 with
          | (some (r0, c0), rng2) =>
            peLoop p ts ws.tail (pushHit s ⟨t, 1, r0, c0, .kPhotoelectron⟩) rng2
          | (none, rng2) => (s, rng2)
        else peLoop p ts ws.tail s rng1

/-- `SiPMSensor::addPhotoelectrons` (src/src/SiPMSensor.cpp:210-256). -/
def addPhotoelectrons (p : SiPMProperties) (s : SensorState) (rng : Rng) :
    SensorState × Rng :=
  peLoop p s.photonTimes s.photonWavelengths s rng

/-- The neighbour-rejection condition of `SiPMSensor::addXtEvents`
(src/src/SiPMSensor.cpp:276-279): the drawn offset is rejected while
`rowAdd + colAdd == 0`. -/
def xtOffsetRejected (ra ca : ℤ) : Bool := decide (ra + ca = 0)

/-- The inner Poisson-process loop of `SiPMSensor::addXtEvents`
(src/src/SiPMSensor.cpp:268-289) for one parent hit: while
`test > exp(-xt)`, draw an offset with `randInteger(2) - 1` per coordinate,
redrawing while `xtOffsetRejected`; an accepted neighbour inside the sensor
is appended at the parent's time with amplitude 1; then `test *= Rand()`. -/
def xtLoop (p : SiPMProperties) (e : ℚ → ℚ) (parent : SiPMHit) :
    Rng → ℚ → SensorState → SensorState × Rng
  | v1 :: v2 :: r, test, s =>
    if e (-p.xt) < test then
      let ra : ℤ := (natDraw v1 2 : ℤ) - 1
      let ca : ℤ := (natDraw v2 2 : ℤ) - 1
      if xtOffsetRejected ra ca then xtLoop p e parent r test s
      else
        let xtRow := parent.row + ra
        let xtCol := parent.col + ca
        let s2 := if isInSensor p xtRow xtCol then
            pushHit s ⟨parent.time, 1, xtRow, xtCol, .kOpticalCrosstalk⟩
          else s
        match r with
        | [] => (s2, [])
        | w :: r2 => xtLoop p e parent r2 (test * fract w) s2
    else (s, v1 :: v2 :: r)
  | rng, test, s => if e (-p.xt) < test then (s, []) else (s, rng)

/-- The cursor walk of `SiPMSensor::addXtEvents` (src/src/SiPMSensor.cpp:263-290):
while `currentCellIdx < m_nTotalHits`, read the hit at the cursor, advance,
and run the inner loop seeded with `test = Rand()`.  `fuel` only bounds the
number of iterations so the recursion is structural; `addXtEvents` supplies
more fuel than the stream can feed. -/
def xtOuter (p : SiPMProperties) (e : ℚ → ℚ) :
    ℕ → ℕ → SensorState → Rng → SensorState × Rng
  | 0, _, s, rng => (s, rng)
  | fuel + 1, i, s, rng =>
    if i < s.nTotalHits then
      match rng with
      | [] => (s, [])
      | v :: rng1 =>
        let parent := s.hits.getD i default
        let sr := xtLoop p e parent rng1 (fract v) s
        xtOuter p e fuel (i + 1) sr.1 sr.2
    else (s, rng)

/-- `SiPMSensor::addXtEvents` (src/src/SiPMSensor.cpp:259-291). -/
def addXtEvents (p : SiPMProperties) (e : ℚ → ℚ) (s : SensorState) (rng : Rng) :
    SensorState × Rng :=
  xtOuter p e (rng.length + 1) 0 s rng

/-- The inner Poisson-process loop of `SiPMSensor::addApEvents`
(src/src/SiPMSensor.cpp:308-330) for one parent hit: while
`test > exp(-ap)`, pick the slow or fast exponential delay, append an
after-pulse when the delayed time is inside the signal window, with
amplitude `parent.amplitude · (1 - exp(-delay / recoveryTime))`; then
`test = Rand()`. -/
def apLoop (p : SiPMProperties) (e : ℚ → ℚ) (parent : SiPMHit) :
    Rng → ℚ → SensorState → SensorState × Rng
  | v1 :: v2 :: r, test, s =>
    if e (-p.ap) < test then
      let apDelay := if fract v1 < p.apSlowFraction then expDraw p.tauApSlow v2
        else expDraw p.tauApFast v2
      let s2 := if parent.time + apDelay < p.signalLength then
          pushHit s ⟨parent.time + apDelay,
            parent.amplitude * (1 - e (-apDelay / p.recoveryTime)),
            parent.row, parent.col, .kAfterPulse⟩
        else s
      match r with
      | [] => (s2, [])
      | w :: r2 => apLoop p e parent r2 (fract w) s2
    else (s, v1 :: v2 :: r)
  | rng, test, s => if e (-p.ap) < test then (s, []) else (s, rng)

/-- The cursor walk of `SiPMSensor::addApEvents` (src/src/SiPMSensor.cpp:303-331). -/
def apOuter (p : SiPMProperties) (e : ℚ → ℚ) :
    ℕ → ℕ → SensorState → Rng → SensorState × Rng
  | 0, _, s, rng => (s, rng)
  | fuel + 1, i, s, rng =>
    if i < s.nTotalHits then
      match rng with
      | [] => (s, [])
      | v :: rng1 =>
        let parent := s.hits.getD i default
        let sr := apLoop p e parent rng1 (fract v) s
        apOuter p e fuel (i + 1) sr.1 sr.2
    else (s, rng)

/-- `SiPMSensor::addApEvents` (src/src/SiPMSensor.cpp:294-332). -/
def addApEvents (p : SiPMProperties) (e : ℚ → ℚ) (s : SensorState) (rng : Rng) :
    SensorState × Rng :=
  apOuter p e (rng.length + 1) 0 s rng

/-- Modelled from the spec: `sortHits` (not under `src/`) sorts the hit
buffer by ascending time, stable. -/
def sortHits (hs : List SiPMHit) : List SiPMHit :=
  hs.mergeSort (fun a b => decide (a.time ≤ b.time))

/-- The per-cell walk of `SiPMSensor::calculateSignalAmplitudes`
(src/src/SiPMSensor.cpp:344-355): `previousHitTime` starts at 0; a hit of
the cell seen while `previousHitTime == 0` keeps its amplitude and only
records its time; afterwards each hit of the cell gets
`1 - exp(-delay · tauRecovery)`. -/
def rechargeWalk (e : ℚ → ℚ) (tauRecovery : ℚ) (idv : ℤ) (m : ℕ) :
    ℚ → List SiPMHit → List SiPMHit
  | _, [] => []
  | prev, h :: t =>
    if hitId m h = idv then
      if prev = 0 then h :: rechargeWalk e tauRecovery idv m h.time t
      else
        { h with amplitude := 1 - e (-(h.time - prev) * tauRecovery) } ::
          rechargeWalk e tauRecovery idv m h.time t
    else h :: rechargeWalk e tauRecovery idv m prev t

/-- `SiPMSensor::calculateSignalAmplitudes` (src/src/SiPMSensor.cpp:335-358):
sort the hits, collect the cell ids, and for every id hit more than once run
the recharge walk with `tauRecovery = 1 / recoveryTime`. -/
def calculateSignalAmplitudes (p : SiPMProperties) (e : ℚ → ℚ)
    (s : SensorState) : SensorState :=
  let sorted := sortHits s.hits
  let cellId := sorted.map (hitId p.nSideCells)
  let tauRecovery := 1 / p.recoveryTime
  let hits2 := cellId.dedup.foldl
    (fun hs idv => if 1 < cellId.count idv then
        rechargeWalk e tauRecovery idv p.nSideCells 0 hs
      else hs) sorted
  { s with hits := hits2 }

/-- The value `*std::max_element` returns on the template (first element as
the running maximum; 0 for the empty list, where the C++ would be undefined). -/
def listMax : List ℚ → ℚ
  | [] => 0
  | a :: t => t.foldl max a

/-- The un-normalized template of `SiPMSensor::signalShape`
(src/src/SiPMSensor.cpp:74-92): a two- or three-exponential difference at
each sample index, with time constants in units of the sampling period. -/
def signalShapeRaw (p : SiPMProperties) (e : ℚ → ℚ) : List ℚ :=
  (List.range (nSignalPoints p)).map (fun i : ℕ =>
    let tr := p.risingTime / p.sampling
    let tff := p.fallingTimeFast / p.sampling
    if p.hasSlowComponent then
      let tfs := p.fallingTimeSlow / p.sampling
      let slf := p.slowComponentFraction
      (1 - slf) * e (-(i : ℚ) / tff) + slf * e (-(i : ℚ) / tfs) - e (-(i : ℚ) / tr)
    else
      e (-(i : ℚ) / tff) - e (-(i : ℚ) / tr))

/-- `SiPMSensor::signalShape` (src/src/SiPMSensor.cpp:74-101): the raw
template divided by its maximum. -/
def signalShape (p : SiPMProperties) (e : ℚ → ℚ) : List ℚ :=
  let raw := signalShapeRaw p e
  raw.map (fun x => x / listMax raw)

/-- Pop one stream value (0 when exhausted). -/
def pop1 : Rng → ℚ × Rng
  | [] => (0, [])
  | v :: r => (v, r)

/-- Pop `n` stream values (0-padded when exhausted). -/
def popN : ℕ → Rng → List ℚ × Rng
  | 0, rng => ([], rng)
  | n + 1, [] => (List.replicate (n + 1) 0, [])
  | n + 1, v :: r =>
    let vr := popN n r
    (v :: vr.1, vr.2)

/-- One hit's superposition in `SiPMSensor::generateSignal`
(src/src/SiPMSensor.cpp:392-398): add `g · template[i - k]` to sample `i`
for `i ∈ [k, N)`; a hit whose index `k` is negative or at or past `N`
contributes nothing (the C++ loop body never runs there). -/
def addPulse (shape : List ℚ) (k : ℤ) (g : ℚ) (sig : List ℚ) : List ℚ :=
  sig.mapIdx (fun i x =>
    if 0 ≤ k ∧ k.toNat ≤ i then x + g * shape.getD (i - k.toNat) 0 else x)

/-- `SiPMSensor::generateSignal` (src/src/SiPMSensor.cpp:386-400, the scalar
version; the AVX2 version computes the same sums): start from
`gaussian(0, snr)` noise, then superpose each hit at `k = time / sampling`
with gain `amplitude · gaussian(1, ccgv)`. -/
def generateSignal (p : SiPMProperties) (e : ℚ → ℚ) (s : SensorState)
    (rng : Rng) : SensorState × Rng :=
  let n := nSignalPoints p
  let shape := signalShape p e
  let noise := popN n rng
  let sig0 := noise.1.map (fun v => p.snrLinear * v)
  let acc := s.hits.foldl (fun (acc : List ℚ × Rng) h =>
    let vr := pop1 acc.2
    let g := h.amplitude * (1 + p.ccgv * vr.1)
    let k := truncZ (h.time / p.sampling)
    (addPulse shape k g acc.1, vr.2)) (sig0, noise.2)
  ({ s with signal := acc.1 }, acc.2)

/-- `SiPMSensor::runEvent` (src/src/SiPMSensor.cpp:46-59): the passes in
source order, with no reset of any counter or buffer. -/
def runEvent (p : SiPMProperties) (e : ℚ → ℚ) (s : SensorState) (rng : Rng) :
    SensorState × Rng :=
  let sr1 := if p.hasDcr then addDcrEvents p s rng else (s, rng)
  let sr2 := addPhotoelectrons p sr1.1 sr1.2
  let sr3 := if p.hasXt then addXtEvents p e sr2.1 sr2.2 else sr2
  let s4 := calculateSignalAmplitudes p e sr3.1
  let sr5 := if p.hasAp then addApEvents p e s4 sr3.2 else (s4, sr3.2)
  generateSignal p e sr5.1 sr5.2

/-- One full cycle as the batch driver performs it: reset, load photons,
run the event. -/
def runFullEvent (p : SiPMProperties) (e : ℚ → ℚ) (ts ws : List ℚ)
    (s : SensorState) (rng : Rng) : SensorState × Rng :=
  runEvent p e (addPhotonsWl (resetState s) ts ws) rng

/-- The per-event record the batch driver extracts (`SiPMResult` fields the
claims are about: the stable index, the inputs carried along, and the raw
signal; the waveform summaries are consumers of the signal and are out of
scope). -/
structure SiPMResult where
  idx : ℕ
  times : List ℚ
  wavelengths : List ℚ
  signal : List ℚ
deriving DecidableEq, Repr

/-- The batch driver's own state (`m_Times`, `m_Wavelengths`, `m_Results`). -/
structure SimState where
  times : List (List ℚ)
  wavelengths : List (List ℚ)
  results : List SiPMResult
deriving DecidableEq, Repr

/-- What one `runSimulaion` call leaves behind: the batch state, the
(possibly downgraded) sensor properties, whether the missing-wavelengths
diagnostic was printed, and the sensor and stream. -/
structure SimOutcome where
  sim : SimState
  props : SiPMProperties
  warned : Bool
  sensor : SensorState
  rng : Rng
deriving DecidableEq, Repr

/-- The event loop of the wavelength-less branches of
`SiPMSimulator::runSimulaion` (src/src/SiPMSimulator.cpp:141-160 and
183-204): for each event, reset, `addPhotons(times[i])`, run, and push one
result record. -/
def simLoopNoWl (p : SiPMProperties) (e : ℚ → ℚ) :
    ℕ → List (List ℚ) → SensorState → Rng → List SiPMResult × SensorState × Rng
  | _, [], s, rng => ([], s, rng)
  | i, ts :: rest, s, rng =>
    let sr := runEvent p e (addPhotons (resetState s) ts) rng
    let res : SiPMResult := ⟨i, ts, [], sr.1.signal⟩
    let tail := simLoopNoWl p e (i + 1) rest sr.1 sr.2
    (res :: tail.1, tail.2.1, tail.2.2)

/-- The event loop of the spectrum branch of `SiPMSimulator::runSimulaion`
(src/src/SiPMSimulator.cpp:162-181): every event is loaded with
`m_Wavelengths[i]` and run with the spectrum PDE kept. -/
def simLoopWl (p : SiPMProperties) (e : ℚ → ℚ) (allW : List (List ℚ)) :
    ℕ → List (List ℚ) → SensorState → Rng → List SiPMResult × SensorState × Rng
  | _, [], s, rng => ([], s, rng)
  | i, ts :: rest, s, rng =>
    let ws := allW.getD i []
    let sr := runEvent p e (addPhotonsWl (resetState s) ts ws) rng
    let res : SiPMResult := ⟨i, ts, ws, sr.1.signal⟩
    let tail := simLoopWl p e allW (i + 1) rest sr.1 sr.2
    (res :: tail.1, tail.2.1, tail.2.2)

/-- `SiPMSimulator::runSimulaion` (src/src/SiPMSimulator.cpp:131-205, the
serial version; the OpenMP version routes identically): `needWlen` is
whether spectrum PDE is configured, `hasWlen` is whether the batch's whole
wavelength collection is non-empty; only when spectrum PDE is configured
and that collection is entirely empty does the driver set the sensor's PDE
type to `kNoPde` and print the diagnostic, and it still runs every event. -/
def runSimulaion (p : SiPMProperties) (e : ℚ → ℚ) (sim : SimState)
    (s : SensorState) (rng : Rng) : SimOutcome :=
  let needWlen := p.pdeType = .kSpectrumPde
  let hasWlen := sim.wavelengths ≠ []
  if ¬ needWlen then
    let out := simLoopNoWl p e 0 sim.times s rng
    ⟨{ sim with results := sim.results ++ out.1 }, p, false, out.2.1, out.2.2⟩
  else if hasWlen then
    let out := simLoopWl p e sim.wavelengths 0 sim.times s rng
    ⟨{ sim with results := sim.results ++ out.1 }, p, false, out.2.1, out.2.2⟩
  else
    let p2 := { p with pdeType := .kNoPde }
    let out := simLoopNoWl p2 e 0 sim.times s rng
    ⟨{ sim with results := sim.results ++ out.1 }, p2, true, out.2.1, out.2.2⟩

/-! ### Invariants -/

/-- The counter equation (`nTotalHits` equals the sum of the per-origin
counters and the hit-buffer length). -/
def countersOk (s : SensorState) : Prop :=
  s.nTotalHits = s.nPe + s.nDcr + s.nXt + s.nAp ∧ s.nTotalHits = s.hits.length

/-- The per-hit window/grid invariant: `0 ≤ time < L` and both coordinates
in `[0, nSideCells)`. -/
def hitOk (p : SiPMProperties) (h : SiPMHit) : Prop :=
  0 ≤ h.time ∧ h.time < p.signalLength ∧
  0 ≤ h.row ∧ h.row < (p.nSideCells : ℤ) ∧
  0 ≤ h.col ∧ h.col < (p.nSideCells : ℤ)

instance (p : SiPMProperties) (h : SiPMHit) : Decidable (hitOk p h) := by
  unfold hitOk
  infer_instance

/-- Every hit in the buffer satisfies `hitOk`. -/
def hitsOk (p : SiPMProperties) (s : SensorState) : Prop :=
  ∀ h ∈ s.hits, hitOk p h

theorem countersOk_pushHit {s : SensorState} (h : SiPMHit) (hc : countersOk s) :
    countersOk (pushHit s h) := by
  obtain ⟨h1, h2⟩ := hc
  cases ht : h.htype <;>
    simp only [pushHit, countersOk, ht, List.length_append, List.length_cons,
      List.length_nil, reduceCtorEq, if_true, if_false, reduceIte] <;>
    omega

theorem hitsOk_pushHit {p : SiPMProperties} {s : SensorState} {h : SiPMHit}
    (hall : hitsOk p s) (hh : hitOk p h) : hitsOk p (pushHit s h) := by
  intro h' hmem
  simp only [pushHit, List.mem_append, List.mem_singleton] at hmem
  rcases hmem with hmem | rfl
  · exact hall h' hmem
  · exact hh

theorem fract_bounds (v : ℚ) : 0 ≤ fract v ∧ fract v < 1 :=
  ⟨Int.fract_nonneg v, Int.fract_lt_one v⟩

theorem natDraw_int_bounds {m : ℕ} (hM : 1 ≤ m) (v : ℚ) :
    0 ≤ (natDraw v (m - 1) : ℤ) ∧ (natDraw v (m - 1) : ℤ) < (m : ℤ) := by
  have h := Nat.mod_lt ((⌊v⌋).toNat) (y := m - 1 + 1) (Nat.succ_pos _)
  unfold natDraw
  omega

theorem truncZ_bounds {q : ℚ} {n : ℕ} (h0 : 0 ≤ q) (hn : q < (n : ℚ)) :
    0 ≤ truncZ q ∧ truncZ q < (n : ℤ) := by
  unfold truncZ
  rw [if_pos h0]
  refine ⟨Int.floor_nonneg.2 h0, Int.floor_lt.2 ?_⟩
  exact_mod_cast hn

theorem truncZ_scaled_bounds {m d k : ℕ} (hM : 1 ≤ m) (hk : d * k ≤ m)
    {x : ℚ} (h0 : 0 ≤ x) (h2 : x < (d : ℚ)) :
    0 ≤ truncZ (x * (k : ℚ)) ∧ truncZ (x * (k : ℚ)) < (m : ℤ) := by
  have hx0 : 0 ≤ x * (k : ℚ) := mul_nonneg h0 (by positivity)
  have hxm : x * (k : ℚ) < (m : ℚ) := by
    rcases Nat.eq_zero_or_pos k with hk0 | hk0
    · subst hk0
      simpa using (by exact_mod_cast hM : (0 : ℚ) < (m : ℚ))
    · calc x * (k : ℚ) < (d : ℚ) * (k : ℚ) :=
            mul_lt_mul_of_pos_right h2 (by exact_mod_cast hk0)
      _ ≤ (m : ℚ) := by exact_mod_cast hk
  exact truncZ_bounds hx0 hxm

theorem circleSample_accept {v1 v2 x y : ℚ} {r r2 : Rng}
    (h : (some (fract v1 * 2 - 1, fract v2 * 2 - 1), r) =
      ((some (x, y) : Option (ℚ × ℚ)), r2)) :
    -1 ≤ x ∧ x < 1 ∧ -1 ≤ y ∧ y < 1 := by
  obtain ⟨h1, h2⟩ : fract v1 * 2 - 1 = x ∧ fract v2 * 2 - 1 = y := by
    have := congrArg Prod.fst h
    simp only [Option.some.injEq, Prod.mk.injEq] at this
    exact this
  obtain ⟨ha, hb⟩ := fract_bounds v1
  obtain ⟨hc, hd⟩ := fract_bounds v2
  subst h1
  subst h2
  exact ⟨by linarith, by linarith, by linarith, by linarith⟩

theorem circleSample_bounds (b : Bool) : ∀ rng x y r2,
    circleSample b rng = (some (x, y), r2) →
      -1 ≤ x ∧ x < 1 ∧ -1 ≤ y ∧ y < 1 := by
  intro rng
  induction rng using circleSample.induct b with
  | case1 v1 v2 r x0 y0 hb hgt ih =>
    intro x y r2 h
    rw [circleSample, if_pos hb, if_pos hgt] at h
    exact ih x y r2 h
  | case2 v1 v2 r x0 y0 hb hgt =>
    intro x y r2 h
    rw [circleSample, if_pos hb, if_neg hgt] at h
    exact circleSample_accept h
  | case3 v1 v2 r x0 y0 hb hlt ih =>
    intro x y r2 h
    rw [circleSample, if_neg hb, if_pos hlt] at h
    exact ih x y r2 h
  | case4 v1 v2 r x0 y0 hb hlt =>
    intro x y r2 h
    rw [circleSample, if_neg hb, if_neg hlt] at h
    exact circleSample_accept h
  | case5 t hshape =>
    intro x y r2 h
    rcases t with _ | ⟨a, _ | ⟨c, t2⟩⟩
    · simp [circleSample] at h
    · simp [circleSample] at h
    · exact absurd rfl (hshape a c t2)

theorem hitCell_bounds {p : SiPMProperties} (hM : 1 ≤ p.nSideCells) :
    ∀ {rng : Rng} {r0 c0 : ℤ} {rng2 : Rng},
      hitCell p rng = (some (r0, c0), rng2) →
      (0 ≤ r0 ∧ r0 < (p.nSideCells : ℤ)) ∧ (0 ≤ c0 ∧ c0 < (p.nSideCells : ℤ)) := by
  intro rng r0 c0 rng2 h
  unfold hitCell at h
  cases hd : p.hitDistribution <;> rw [hd] at h
  case kUniform =>
    rcases rng with _ | ⟨v1, _ | ⟨v2, r⟩⟩ <;>
      simp only [Prod.mk.injEq, Option.some.injEq, reduceCtorEq, false_and] at h
    obtain ⟨⟨rfl, rfl⟩, rfl⟩ := h
    exact ⟨natDraw_int_bounds hM v1, natDraw_int_bounds hM v2⟩
  case kCircle =>
    rcases rng with _ | ⟨v, r⟩ <;>
      simp only [Prod.mk.injEq, Option.some.injEq, reduceCtorEq, false_and] at h
    have hk : 2 * (p.nSideCells / 2) ≤ p.nSideCells := by omega
    rcases h1 : (if fract v < 95 / 100 then circleSample true r else circleSample false r) with
      ⟨o, r2⟩
    rcases o with _ | ⟨x, y⟩ <;> rw [h1] at h <;>
      simp only [Prod.mk.injEq, Option.some.injEq, reduceCtorEq, false_and] at h
    obtain ⟨⟨rfl, rfl⟩, rfl⟩ := h
    have hxy : -1 ≤ x ∧ x < 1 ∧ -1 ≤ y ∧ y < 1 := by
      by_cases hv : fract v < 95 / 100
      · rw [if_pos hv] at h1
        exact circleSample_bounds true r x y r2 h1
      · rw [if_neg hv] at h1
        exact circleSample_bounds false r x y r2 h1
    obtain ⟨ha, hb, hc, hd2⟩ := hxy
    exact ⟨truncZ_scaled_bounds hM hk (by linarith) (by push_cast; linarith),
      truncZ_scaled_bounds hM hk (by linarith) (by push_cast; linarith)⟩
  case kGaussian =>
    rcases rng with _ | ⟨v1, _ | ⟨v2, r⟩⟩ <;>
      simp only [Prod.mk.injEq, Option.some.injEq, reduceCtorEq, false_and] at h
    have hk : 6 * (p.nSideCells / 6) ≤ p.nSideCells := by omega
    by_cases hg : |v1| < 3 ∧ |v2| < 3
    · rw [if_pos hg] at h
      simp only [Prod.mk.injEq, Option.some.injEq] at h
      obtain ⟨⟨rfl, rfl⟩, rfl⟩ := h
      obtain ⟨h1a, h1b⟩ := abs_lt.mp hg.1
      obtain ⟨h2a, h2b⟩ := abs_lt.mp hg.2
      exact ⟨truncZ_scaled_bounds hM hk (by linarith) (by push_cast; linarith),
        truncZ_scaled_bounds hM hk (by linarith) (by push_cast; linarith)⟩
    · rw [if_neg hg] at h
      rcases r with _ | ⟨w1, _ | ⟨w2, r2⟩⟩ <;>
        simp only [Prod.mk.injEq, Option.some.injEq, reduceCtorEq, false_and] at h
      obtain ⟨⟨rfl, rfl⟩, rfl⟩ := h
      exact ⟨natDraw_int_bounds hM w1, natDraw_int_bounds hM w2⟩

/-- The dark-count pass keeps the counter equation, the photon lists, the
hits-graph, and appends only in-window, on-grid dark hits. -/
theorem dcrLoop_invariants (p : SiPMProperties) (meanDcr : ℚ) :
    ∀ last s rng,
      ((dcrLoop p meanDcr last s rng).1.photonTimes = s.photonTimes ∧
       (dcrLoop p meanDcr last s rng).1.photonWavelengths = s.photonWavelengths ∧
       (dcrLoop p meanDcr last s rng).1.hitsGraph = s.hitsGraph) ∧
      (countersOk s → countersOk (dcrLoop p meanDcr last s rng).1) ∧
      (1 ≤ p.nSideCells → hitsOk p s → hitsOk p (dcrLoop p meanDcr last s rng).1) := by
  intro last s rng
  induction last, s, rng using dcrLoop.induct p meanDcr with
  | case1 last s =>
    simp [dcrLoop]
  | case2 last s v hlt last2 hin w1 w2 r2 ih =>
    rw [dcrLoop, if_pos hlt, if_pos hin]
    refine ⟨⟨ih.1.1, ih.1.2.1, ih.1.2.2⟩, ?_, ?_⟩
    · intro hc
      exact ih.2.1 (countersOk_pushHit _ hc)
    · intro hM hall
      refine ih.2.2 hM (hitsOk_pushHit hall ?_)
      obtain ⟨h1, h2⟩ := hin
      exact ⟨le_of_lt h1, h2, (natDraw_int_bounds hM w1).1, (natDraw_int_bounds hM w1).2,
        (natDraw_int_bounds hM w2).1, (natDraw_int_bounds hM w2).2⟩
  | case3 last s v r hlt last2 hin hshape =>
    rw [dcrLoop, if_pos hlt, if_pos hin]
    rcases r with _ | ⟨w1, _ | ⟨w2, r2⟩⟩
    · simp
    · simp
    · exact absurd rfl (hshape w1 w2 r2)
  | case4 last s v r hlt last2 hin ih =>
    rw [dcrLoop, if_pos hlt, if_neg hin]
    exact ih
  | case5 last s v r hlt =>
    rw [dcrLoop, if_neg hlt]
    simp

/-- The photoelectron pass: invariants.  The window bound on the appended
hits needs every photon time to lie in `[0, L)`. -/
theorem peLoop_invariants (p : SiPMProperties) :
    ∀ ts ws s rng,
      ((peLoop p ts ws s rng).1.photonTimes = s.photonTimes ∧
       (peLoop p ts ws s rng).1.photonWavelengths = s.photonWavelengths ∧
       (peLoop p ts ws s rng).1.hitsGraph = s.hitsGraph) ∧
      (countersOk s → countersOk (peLoop p ts ws s rng).1) ∧
      (1 ≤ p.nSideCells → (∀ t ∈ ts, 0 ≤ t ∧ t < p.signalLength) → hitsOk p s →
        hitsOk p (peLoop p ts ws s rng).1) := by
  intro ts ws s rng
  induction ts, ws, s, rng using peLoop.induct p with
  | case1 ws s rng => simp [peLoop]
  | case2 t ts ws s rng hpde r0 c0 rng2 hcell ih =>
    have hq : peLoop p (t :: ts) ws s rng =
        peLoop p ts ws.tail (pushHit s ⟨t, 1, r0, c0, .kPhotoelectron⟩) rng2 := by
      conv_lhs => rw [peLoop.eq_def]
      simp only [hpde, hcell]
    rw [hq]
    refine ⟨⟨ih.1.1, ih.1.2.1, ih.1.2.2⟩,
      fun hc => ih.2.1 (countersOk_pushHit _ hc), fun hM hts hall => ?_⟩
    refine ih.2.2 hM (fun t2 ht2 => hts t2 (List.mem_cons_of_mem _ ht2))
      (hitsOk_pushHit hall ?_)
    obtain ⟨hb1, hb2⟩ := hitCell_bounds hM hcell
    obtain ⟨ht0, ht1⟩ := hts t (List.mem_cons_self _ _)
    exact ⟨ht0, ht1, hb1.1, hb1.2, hb2.1, hb2.2⟩
  | case3 t ts ws s rng hpde rng2 hcell =>
    have hq : peLoop p (t :: ts) ws s rng = (s, rng2) := by
      conv_lhs => rw [peLoop.eq_def]
      simp only [hpde, hcell]
    rw [hq]
    exact ⟨⟨rfl, rfl, rfl⟩, fun hc => hc, fun _ _ hall => hall⟩
  | case4 t ts ws s hpde =>
    have hq : peLoop p (t :: ts) ws s [] = (s, []) := by
      rw [peLoop, hpde]
    rw [hq]
    exact ⟨⟨rfl, rfl, rfl⟩, fun hc => hc, fun _ _ hall => hall⟩
  | case5 t ts ws s hpde v r hdet r0 c0 rng2 hcell ih =>
    have hq : peLoop p (t :: ts) ws s (v :: r) =
        peLoop p ts ws.tail (pushHit s ⟨t, 1, r0, c0, .kPhotoelectron⟩) rng2 := by
      rw [peLoop, hpde]
      rw [if_pos hdet, hcell]
    rw [hq]
    refine ⟨⟨ih.1.1, ih.1.2.1, ih.1.2.2⟩,
      fun hc => ih.2.1 (countersOk_pushHit _ hc), fun hM hts hall => ?_⟩
    refine ih.2.2 hM (fun t2 ht2 => hts t2 (List.mem_cons_of_mem _ ht2))
      (hitsOk_pushHit hall ?_)
    obtain ⟨hb1, hb2⟩ := hitCell_bounds hM hcell
    obtain ⟨ht0, ht1⟩ := hts t (List.mem_cons_self _ _)
    exact ⟨ht0, ht1, hb1.1, hb1.2, hb2.1, hb2.2⟩
  | case6 t ts ws s hpde v r hdet rng2 hcell =>
    have hq : peLoop p (t :: ts) ws s (v :: r) = (s, rng2) := by
      rw [peLoop, hpde]
      rw [if_pos hdet, hcell]
    rw [hq]
    exact ⟨⟨rfl, rfl, rfl⟩, fun hc => hc, fun _ _ hall => hall⟩
  | case7 t ts ws s hpde v r hdet ih =>
    have hq : peLoop p (t :: ts) ws s (v :: r) = peLoop p ts ws.tail s r := by
      rw [peLoop, hpde]
      rw [if_neg hdet]
    rw [hq]
    exact ⟨ih.1, ih.2.1,
      fun hM hts hall => ih.2.2 hM (fun t2 ht2 => hts t2 (List.mem_cons_of_mem _ ht2)) hall⟩
  | case8 t ts ws s hpde =>
    have hq : peLoop p (t :: ts) ws s [] = (s, []) := by
      rw [peLoop, hpde]
    rw [hq]
    exact ⟨⟨rfl, rfl, rfl⟩, fun hc => hc, fun _ _ hall => hall⟩
  | case9 t ts ws s hpde v r hdet r0 c0 rng2 hcell ih =>
    have hq : peLoop p (t :: ts) ws s (v :: r) =
        peLoop p ts ws.tail (pushHit s ⟨t, 1, r0, c0, .kPhotoelectron⟩) rng2 := by
      rw [peLoop, hpde]
      rw [if_pos hdet, hcell]
    rw [hq]
    refine ⟨⟨ih.1.1, ih.1.2.1, ih.1.2.2⟩,
      fun hc => ih.2.1 (countersOk_pushHit _ hc), fun hM hts hall => ?_⟩
    refine ih.2.2 hM (fun t2 ht2 => hts t2 (List.mem_cons_of_mem _ ht2))
      (hitsOk_pushHit hall ?_)
    obtain ⟨hb1, hb2⟩ := hitCell_bounds hM hcell
    obtain ⟨ht0, ht1⟩ := hts t (List.mem_cons_self _ _)
    exact ⟨ht0, ht1, hb1.1, hb1.2, hb2.1, hb2.2⟩
  | case10 t ts ws s hpde v r hdet rng2 hcell =>
    have hq : peLoop p (t :: ts) ws s (v :: r) = (s, rng2) := by
      rw [peLoop, hpde]
      rw [if_pos hdet, hcell]
    rw [hq]
    exact ⟨⟨rfl, rfl, rfl⟩, fun hc => hc, fun _ _ hall => hall⟩
  | case11 t ts ws s hpde v r hdet ih =>
    have hq : peLoop p (t :: ts) ws s (v :: r) = peLoop p ts ws.tail s r := by
      rw [peLoop, hpde]
      rw [if_neg hdet]
    rw [hq]
    exact ⟨ih.1, ih.2.1,
      fun hM hts hall => ih.2.2 hM (fun t2 ht2 => hts t2 (List.mem_cons_of_mem _ ht2)) hall⟩

/-- An accepted cross-talk child of an in-window, on-grid parent is itself
in-window and on-grid (the `isInSensor` guard even bounds it by
`nSideCells - 1`). -/
theorem xtChild_hitOk {p : SiPMProperties} {parent : SiPMHit} (hp : hitOk p parent)
    {ra ca : ℤ} (hin : isInSensor p (parent.row + ra) (parent.col + ca) = true) :
    hitOk p ⟨parent.time, 1, parent.row + ra, parent.col + ca, .kOpticalCrosstalk⟩ := by
  simp only [isInSensor, decide_eq_true_eq] at hin
  obtain ⟨h1, h2, h3, h4⟩ := hin
  exact ⟨hp.1, hp.2.1, h1, (show parent.row + ra < (p.nSideCells : ℤ) by omega), h2,
    (show parent.col + ca < (p.nSideCells : ℤ) by omega)⟩

/-- The inner cross-talk loop: invariants, given the parent hit is valid. -/
theorem xtLoop_invariants (p : SiPMProperties) (e : ℚ → ℚ) (parent : SiPMHit) :
    ∀ rng test s,
      ((xtLoop p e parent rng test s).1.photonTimes = s.photonTimes ∧
       (xtLoop p e parent rng test s).1.photonWavelengths = s.photonWavelengths ∧
       (xtLoop p e parent rng test s).1.hitsGraph = s.hitsGraph) ∧
      (countersOk s → countersOk (xtLoop p e parent rng test s).1) ∧
      (hitOk p parent → hitsOk p s → hitsOk p (xtLoop p e parent rng test s).1) := by
  intro rng test s
  induction rng, test, s using xtLoop.induct p e parent with
  | case1 v1 v2 r test s htest ra ca hrej ih =>
    have hq : xtLoop p e parent (v1 :: v2 :: r) test s = xtLoop p e parent r test s := by
      rw [xtLoop, if_pos htest, if_pos hrej]
    rw [hq]
    exact ih
  | case2 v1 v2 test s htest ra ca hrej =>
    have hq : xtLoop p e parent [v1, v2] test s =
        (if isInSensor p (parent.row + ra) (parent.col + ca) then
          pushHit s ⟨parent.time, 1, parent.row + ra, parent.col + ca, .kOpticalCrosstalk⟩
        else s, ([] : Rng)) := by
      rw [xtLoop, if_pos htest, if_neg hrej]
    rw [hq]
    by_cases hin : isInSensor p (parent.row + ra) (parent.col + ca) = true
    · rw [if_pos hin]
      exact ⟨⟨rfl, rfl, rfl⟩, fun hc => countersOk_pushHit _ hc,
        fun hp hall => hitsOk_pushHit hall (xtChild_hitOk hp hin)⟩
    · rw [if_neg hin]
      exact ⟨⟨rfl, rfl, rfl⟩, fun hc => hc, fun _ hall => hall⟩
  | case3 v1 v2 test s htest ra ca hrej xtRow xtCol s2 w r2 ih =>
    have hq : xtLoop p e parent (v1 :: v2 :: w :: r2) test s =
        xtLoop p e parent r2 (test * fract w) s2 := by
      rw [xtLoop, if_pos htest, if_neg hrej]
    rw [hq]
    by_cases hin : isInSensor p xtRow xtCol = true
    · have hs2 : s2 = pushHit s ⟨parent.time, 1, xtRow, xtCol, .kOpticalCrosstalk⟩ :=
        if_pos hin
      rw [hs2] at ih ⊢
      exact ⟨⟨ih.1.1, ih.1.2.1, ih.1.2.2⟩, fun hc => ih.2.1 (countersOk_pushHit _ hc),
        fun hp hall => ih.2.2 hp (hitsOk_pushHit hall (xtChild_hitOk hp hin))⟩
    · have hs2 : s2 = s := if_neg hin
      rw [hs2] at ih ⊢
      exact ih
  | case4 v1 v2 r test s htest =>
    have hq : xtLoop p e parent (v1 :: v2 :: r) test s = (s, v1 :: v2 :: r) := by
      rw [xtLoop, if_neg htest]
    rw [hq]
    exact ⟨⟨rfl, rfl, rfl⟩, fun hc => hc, fun _ hall => hall⟩
  | case5 rng test s hshape htest =>
    rcases rng with _ | ⟨a, _ | ⟨b, r⟩⟩
    · rw [show xtLoop p e parent [] test s = (s, []) from by rw [xtLoop, if_pos htest] <;> simp]
      exact ⟨⟨rfl, rfl, rfl⟩, fun hc => hc, fun _ hall => hall⟩
    · rw [show xtLoop p e parent [a] test s = (s, []) from by rw [xtLoop, if_pos htest] <;> simp]
      exact ⟨⟨rfl, rfl, rfl⟩, fun hc => hc, fun _ hall => hall⟩
    · exact absurd rfl (hshape a b r)
  | case6 rng test s hshape htest =>
    rcases rng with _ | ⟨a, _ | ⟨b, r⟩⟩
    · rw [show xtLoop p e parent [] test s = (s, []) from by rw [xtLoop, if_neg htest] <;> simp]
      exact ⟨⟨rfl, rfl, rfl⟩, fun hc => hc, fun _ hall => hall⟩
    · rw [show xtLoop p e parent [a] test s = (s, [a]) from by rw [xtLoop, if_neg htest] <;> simp]
      exact ⟨⟨rfl, rfl, rfl⟩, fun hc => hc, fun _ hall => hall⟩
    · exact absurd rfl (hshape a b r)

/-- The cross-talk cursor walk: invariants.  The hit-validity part consumes
`countersOk` so that the cursor access `m_Hits[currentCellIdx]` stays inside
the buffer. -/
theorem xtOuter_invariants (p : SiPMProperties) (e : ℚ → ℚ) :
    ∀ fuel i s rng,
      ((xtOuter p e fuel i s rng).1.photonTimes = s.photonTimes ∧
       (xtOuter p e fuel i s rng).1.photonWavelengths = s.photonWavelengths ∧
       (xtOuter p e fuel i s rng).1.hitsGraph = s.hitsGraph) ∧
      (countersOk s → countersOk (xtOuter p e fuel i s rng).1) ∧
      (countersOk s → hitsOk p s → hitsOk p (xtOuter p e fuel i s rng).1) := by
  intro fuel i s rng
  induction fuel, i, s, rng using xtOuter.induct p e with
  | case1 i s rng => simp [xtOuter]
  | case2 fuel i s hi =>
    rw [show xtOuter p e (fuel + 1) i s [] = (s, []) from by
      conv_lhs => rw [xtOuter.eq_def]
      simp only [if_pos hi]]
    exact ⟨⟨rfl, rfl, rfl⟩, fun hc => hc, fun _ hall => hall⟩
  | case3 fuel i s hi v r parent sr ih =>
    have hq : xtOuter p e (fuel + 1) i s (v :: r) = xtOuter p e fuel (i + 1) sr.1 sr.2 := by
      rw [xtOuter, if_pos hi]
    rw [hq]
    have hx := xtLoop_invariants p e parent r (fract v) s
    refine ⟨⟨ih.1.1.trans hx.1.1, ih.1.2.1.trans hx.1.2.1, ih.1.2.2.trans hx.1.2.2⟩,
      fun hc => ih.2.1 (hx.2.1 hc), fun hc hall => ?_⟩
    have hlen : i < s.hits.length := by
      have h2 := hc.2
      omega
    have hparent : parent ∈ s.hits := by
      have : parent = s.hits[i] := List.getD_eq_getElem s.hits default hlen
      rw [this]
      exact List.getElem_mem hlen
    exact ih.2.2 (hx.2.1 hc) (hx.2.2 (hall parent hparent) hall)
  | case4 fuel i s rng hi =>
    rw [show xtOuter p e (fuel + 1) i s rng = (s, rng) from by
      conv_lhs => rw [xtOuter.eq_def]
      simp only [if_neg hi]]
    exact ⟨⟨rfl, rfl, rfl⟩, fun hc => hc, fun _ hall => hall⟩

/-- An accepted after-pulse of an in-window, on-grid parent is itself
in-window and on-grid: its delay is nonnegative and the append is guarded by
`time + delay < signalLength`. -/
theorem apChild_hitOk {p : SiPMProperties} {parent : SiPMHit} (hp : hitOk p parent)
    {apDelay amp : ℚ} (hd : 0 ≤ apDelay)
    (hwin : parent.time + apDelay < p.signalLength) :
    hitOk p ⟨parent.time + apDelay, amp, parent.row, parent.col, .kAfterPulse⟩ := by
  obtain ⟨h1, h2, h3, h4, h5, h6⟩ := hp
  exact ⟨(show (0 : ℚ) ≤ parent.time + apDelay by linarith), hwin, h3, h4, h5, h6⟩

/-- The inner after-pulse loop: invariants, given the parent hit is valid. -/
theorem apLoop_invariants (p : SiPMProperties) (e : ℚ → ℚ) (parent : SiPMHit) :
    ∀ rng test s,
      ((apLoop p e parent rng test s).1.photonTimes = s.photonTimes ∧
       (apLoop p e parent rng test s).1.photonWavelengths = s.photonWavelengths ∧
       (apLoop p e parent rng test s).1.hitsGraph = s.hitsGraph) ∧
      (countersOk s → countersOk (apLoop p e parent rng test s).1) ∧
      (hitOk p parent → hitsOk p s → hitsOk p (apLoop p e parent rng test s).1) := by
  intro rng test s
  induction rng, test, s using apLoop.induct p e parent with
  | case1 v1 v2 test s htest =>
    have hq : apLoop p e parent [v1, v2] test s =
        (if parent.time +
            (if fract v1 < p.apSlowFraction then expDraw p.tauApSlow v2
              else expDraw p.tauApFast v2) < p.signalLength then
          pushHit s ⟨parent.time +
              (if fract v1 < p.apSlowFraction then expDraw p.tauApSlow v2
                else expDraw p.tauApFast v2),
            parent.amplitude * (1 - e (-(if fract v1 < p.apSlowFraction then
              expDraw p.tauApSlow v2 else expDraw p.tauApFast v2) / p.recoveryTime)),
            parent.row, parent.col, .kAfterPulse⟩
        else s, ([] : Rng)) := by
      rw [apLoop, if_pos htest]
    rw [hq]
    have hd : 0 ≤ (if fract v1 < p.apSlowFraction then expDraw p.tauApSlow v2
        else expDraw p.tauApFast v2) := by
      split <;> exact abs_nonneg _
    by_cases hwin : parent.time +
        (if fract v1 < p.apSlowFraction then expDraw p.tauApSlow v2
          else expDraw p.tauApFast v2) < p.signalLength
    · rw [if_pos hwin]
      exact ⟨⟨rfl, rfl, rfl⟩, fun hc => countersOk_pushHit _ hc,
        fun hp hall => hitsOk_pushHit hall (apChild_hitOk hp hd hwin)⟩
    · rw [if_neg hwin]
      exact ⟨⟨rfl, rfl, rfl⟩, fun hc => hc, fun _ hall => hall⟩
  | case2 v1 v2 test s htest apDelay s2 w r2 ih =>
    have hq : apLoop p e parent (v1 :: v2 :: w :: r2) test s =
        apLoop p e parent r2 (fract w) s2 := by
      rw [apLoop, if_pos htest]
    rw [hq]
    have hd : 0 ≤ apDelay := by
      show 0 ≤ (if fract v1 < p.apSlowFraction then expDraw p.tauApSlow v2
        else expDraw p.tauApFast v2)
      split <;> exact abs_nonneg _
    by_cases hwin : parent.time + apDelay < p.signalLength
    · have hs2 : s2 = pushHit s ⟨parent.time + apDelay,
          parent.amplitude * (1 - e (-apDelay / p.recoveryTime)),
          parent.row, parent.col, .kAfterPulse⟩ := if_pos hwin
      rw [hs2] at ih ⊢
      exact ⟨⟨ih.1.1, ih.1.2.1, ih.1.2.2⟩, fun hc => ih.2.1 (countersOk_pushHit _ hc),
        fun hp hall => ih.2.2 hp (hitsOk_pushHit hall (apChild_hitOk hp hd hwin))⟩
    · have hs2 : s2 = s := if_neg hwin
      rw [hs2] at ih ⊢
      exact ih
  | case3 v1 v2 r test s htest =>
    rw [show apLoop p e parent (v1 :: v2 :: r) test s = (s, v1 :: v2 :: r) from by
      rw [apLoop, if_neg htest]]
    exact ⟨⟨rfl, rfl, rfl⟩, fun hc => hc, fun _ hall => hall⟩
  | case4 rng test s hshape htest =>
    rcases rng with _ | ⟨a, _ | ⟨b, r⟩⟩
    · rw [show apLoop p e parent [] test s = (s, []) from by
        rw [apLoop, if_pos htest] <;> simp]
      exact ⟨⟨rfl, rfl, rfl⟩, fun hc => hc, fun _ hall => hall⟩
    · rw [show apLoop p e parent [a] test s = (s, []) from by
        rw [apLoop, if_pos htest] <;> simp]
      exact ⟨⟨rfl, rfl, rfl⟩, fun hc => hc, fun _ hall => hall⟩
    · exact absurd rfl (hshape a b r)
  | case5 rng test s hshape htest =>
    rcases rng with _ | ⟨a, _ | ⟨b, r⟩⟩
    · rw [show apLoop p e parent [] test s = (s, []) from by
        rw [apLoop, if_neg htest] <;> simp]
      exact ⟨⟨rfl, rfl, rfl⟩, fun hc => hc, fun _ hall => hall⟩
    · rw [show apLoop p e parent [a] test s = (s, [a]) from by
        rw [apLoop, if_neg htest] <;> simp]
      exact ⟨⟨rfl, rfl, rfl⟩, fun hc => hc, fun _ hall => hall⟩
    · exact absurd rfl (hshape a b r)

/-- The after-pulse cursor walk: invariants. -/
theorem apOuter_invariants (p : SiPMProperties) (e : ℚ → ℚ) :
    ∀ fuel i s rng,
      ((apOuter p e fuel i s rng).1.photonTimes = s.photonTimes ∧
       (apOuter p e fuel i s rng).1.photonWavelengths = s.photonWavelengths ∧
       (apOuter p e fuel i s rng).1.hitsGraph = s.hitsGraph) ∧
      (countersOk s → countersOk (apOuter p e fuel i s rng).1) ∧
      (countersOk s → hitsOk p s → hitsOk p (apOuter p e fuel i s rng).1) := by
  intro fuel i s rng
  induction fuel, i, s, rng using apOuter.induct p e with
  | case1 i s rng => simp [apOuter]
  | case2 fuel i s hi =>
    rw [show apOuter p e (fuel + 1) i s [] = (s, []) from by
      conv_lhs => rw [apOuter.eq_def]
      simp only [if_pos hi]]
    exact ⟨⟨rfl, rfl, rfl⟩, fun hc => hc, fun _ hall => hall⟩
  | case3 fuel i s hi v r parent sr ih =>
    have hq : apOuter p e (fuel + 1) i s (v :: r) = apOuter p e fuel (i + 1) sr.1 sr.2 := by
      rw [apOuter, if_pos hi]
    rw [hq]
    have hx := apLoop_invariants p e parent r (fract v) s
    refine ⟨⟨ih.1.1.trans hx.1.1, ih.1.2.1.trans hx.1.2.1, ih.1.2.2.trans hx.1.2.2⟩,
      fun hc => ih.2.1 (hx.2.1 hc), fun hc hall => ?_⟩
    have hlen : i < s.hits.length := by
      have h2 := hc.2
      omega
    have hparent : parent ∈ s.hits := by
      have : parent = s.hits[i] := List.getD_eq_getElem s.hits default hlen
      rw [this]
      exact List.getElem_mem hlen
    exact ih.2.2 (hx.2.1 hc) (hx.2.2 (hall parent hparent) hall)
  | case4 fuel i s rng hi =>
    rw [show apOuter p e (fuel + 1) i s rng = (s, rng) from by
      conv_lhs => rw [apOuter.eq_def]
      simp only [if_neg hi]]
    exact ⟨⟨rfl, rfl, rfl⟩, fun hc => hc, fun _ hall => hall⟩

theorem rechargeWalk_length (e : ℚ → ℚ) (tau : ℚ) (idv : ℤ) (m : ℕ) :
    ∀ prev l, (rechargeWalk e tau idv m prev l).length = l.length := by
  intro prev l
  induction prev, l using rechargeWalk.induct e tau idv m with
  | case1 prev => simp [rechargeWalk]
  | case2 h t hid ih =>
    rw [rechargeWalk, if_pos hid, if_pos rfl]
    simpa using ih
  | case3 prev h t hid hprev ih =>
    rw [rechargeWalk, if_pos hid, if_neg hprev]
    simpa using ih
  | case4 prev h t hid ih =>
    rw [rechargeWalk, if_neg hid]
    simpa using ih

theorem rechargeWalk_hitsOk {p : SiPMProperties} (e : ℚ → ℚ) (tau : ℚ) (idv : ℤ)
    (m : ℕ) : ∀ prev l, (∀ h ∈ l, hitOk p h) →
      ∀ h ∈ rechargeWalk e tau idv m prev l, hitOk p h := by
  intro prev l
  induction prev, l using rechargeWalk.induct e tau idv m with
  | case1 prev =>
    intro _ h hmem
    simp [rechargeWalk] at hmem
  | case2 h t hid ih =>
    intro hall h2 hmem
    rw [rechargeWalk, if_pos hid, if_pos rfl] at hmem
    rcases List.mem_cons.mp hmem with rfl | hmem2
    · exact hall h2 (List.mem_cons_self _ _)
    · exact ih (fun h3 hm3 => hall h3 (List.mem_cons_of_mem _ hm3)) h2 hmem2
  | case3 prev h t hid hprev ih =>
    intro hall h2 hmem
    rw [rechargeWalk, if_pos hid, if_neg hprev] at hmem
    rcases List.mem_cons.mp hmem with rfl | hmem2
    · exact hall h (List.mem_cons_self _ _)
    · exact ih (fun h3 hm3 => hall h3 (List.mem_cons_of_mem _ hm3)) h2 hmem2
  | case4 prev h t hid ih =>
    intro hall h2 hmem
    rw [rechargeWalk, if_neg hid] at hmem
    rcases List.mem_cons.mp hmem with rfl | hmem2
    · exact hall h2 (List.mem_cons_self _ _)
    · exact ih (fun h3 hm3 => hall h3 (List.mem_cons_of_mem _ hm3)) h2 hmem2

theorem sortHits_length (hs : List SiPMHit) : (sortHits hs).length = hs.length :=
  List.length_mergeSort hs

theorem sortHits_mem {hs : List SiPMHit} {h : SiPMHit} (hm : h ∈ sortHits hs) :
    h ∈ hs :=
  (List.mergeSort_perm hs _).mem_iff.mp hm

theorem rechargeFold_length (e : ℚ → ℚ) (tau : ℚ) (m : ℕ) (cellId : List ℤ) :
    ∀ (ids : List ℤ) (hs : List SiPMHit),
      (ids.foldl (fun hs idv => if 1 < cellId.count idv then
        rechargeWalk e tau idv m 0 hs else hs) hs).length = hs.length := by
  intro ids
  induction ids with
  | nil => intro hs; rfl
  | cons a t ih =>
    intro hs
    rw [List.foldl_cons]
    by_cases hcnt : 1 < cellId.count a
    · rw [if_pos hcnt, ih, rechargeWalk_length]
    · rw [if_neg hcnt, ih]

theorem rechargeFold_hitsOk {p : SiPMProperties} (e : ℚ → ℚ) (tau : ℚ) (m : ℕ)
    (cellId : List ℤ) : ∀ (ids : List ℤ) (hs : List SiPMHit),
      (∀ h ∈ hs, hitOk p h) →
      ∀ h ∈ ids.foldl (fun hs idv => if 1 < cellId.count idv then
        rechargeWalk e tau idv m 0 hs else hs) hs, hitOk p h := by
  intro ids
  induction ids with
  | nil => intro hs hall; exact hall
  | cons a t ih =>
    intro hs hall
    rw [List.foldl_cons]
    by_cases hcnt : 1 < cellId.count a
    · rw [if_pos hcnt]
      exact ih _ (rechargeWalk_hitsOk e tau a m 0 hs hall)
    · rw [if_neg hcnt]
      exact ih _ hall

/-- The recharge resolver: it only permutes the hits and rewrites
amplitudes, so the photon lists, hits-graph, counters and buffer length are
unchanged and every window/grid-valid buffer stays valid. -/
theorem calcAmps_invariants (p : SiPMProperties) (e : ℚ → ℚ) (s : SensorState) :
    ((calculateSignalAmplitudes p e s).photonTimes = s.photonTimes ∧
     (calculateSignalAmplitudes p e s).photonWavelengths = s.photonWavelengths ∧
     (calculateSignalAmplitudes p e s).hitsGraph = s.hitsGraph) ∧
    (countersOk s → countersOk (calculateSignalAmplitudes p e s)) ∧
    (hitsOk p s → hitsOk p (calculateSignalAmplitudes p e s)) := by
  refine ⟨⟨rfl, rfl, rfl⟩, fun hc => ⟨hc.1, ?_⟩, fun hall h hmem => ?_⟩
  · show s.nTotalHits = (List.foldl _ (sortHits s.hits) _).length
    rw [show ∀ (l : List SiPMHit) (ids : List ℤ) (f : List SiPMHit → ℤ → List SiPMHit),
      List.foldl f l ids = ids.foldl f l from fun _ _ _ => rfl]
    rw [rechargeFold_length, sortHits_length]
    exact hc.2
  · have hmem2 : h ∈ ((sortHits s.hits).map (hitId p.nSideCells)).dedup.foldl
        (fun hs idv => if 1 < ((sortHits s.hits).map (hitId p.nSideCells)).count idv then
          rechargeWalk e (1 / p.recoveryTime) idv p.nSideCells 0 hs else hs)
        (sortHits s.hits) := hmem
    exact rechargeFold_hitsOk e (1 / p.recoveryTime) p.nSideCells _ _ _
      (fun h2 hm2 => hall h2 (sortHits_mem hm2)) h hmem2

/-- The renderer touches only the signal buffer and the stream. -/
theorem generateSignal_fields (p : SiPMProperties) (e : ℚ → ℚ) (s : SensorState)
    (rng : Rng) :
    (generateSignal p e s rng).1.hits = s.hits ∧
    (generateSignal p e s rng).1.photonTimes = s.photonTimes ∧
    (generateSignal p e s rng).1.photonWavelengths = s.photonWavelengths ∧
    (generateSignal p e s rng).1.hitsGraph = s.hitsGraph ∧
    (generateSignal p e s rng).1.nTotalHits = s.nTotalHits ∧
    (generateSignal p e s rng).1.nPe = s.nPe ∧
    (generateSignal p e s rng).1.nDcr = s.nDcr ∧
    (generateSignal p e s rng).1.nXt = s.nXt ∧
    (generateSignal p e s rng).1.nAp = s.nAp :=
  ⟨rfl, rfl, rfl, rfl, rfl, rfl, rfl, rfl, rfl⟩

theorem countersOk_generateSignal (p : SiPMProperties) (e : ℚ → ℚ) (s : SensorState)
    (rng : Rng) (hc : countersOk s) : countersOk (generateSignal p e s rng).1 := by
  obtain ⟨hf1, _, _, _, hf5, hf6, hf7, hf8, hf9⟩ := generateSignal_fields p e s rng
  exact ⟨by rw [hf5, hf6, hf7, hf8, hf9]; exact hc.1, by rw [hf5, hf1]; exact hc.2⟩

theorem hitsOk_generateSignal {p : SiPMProperties} (e : ℚ → ℚ) (s : SensorState)
    (rng : Rng) (hall : hitsOk p s) : hitsOk p (generateSignal p e s rng).1 := by
  intro h hmem
  rw [(generateSignal_fields p e s rng).1] at hmem
  exact hall h hmem

/-- `runEvent`: the full pipeline preserves the counter equation, never
touches the photon lists or the hits-graph, and — given `nSideCells ≥ 1`
and all photon times inside `[0, L)` — keeps every hit in-window and
on-grid. -/
theorem runEvent_invariants (p : SiPMProperties) (e : ℚ → ℚ) (s : SensorState)
    (rng : Rng) :
    ((runEvent p e s rng).1.photonTimes = s.photonTimes ∧
     (runEvent p e s rng).1.photonWavelengths = s.photonWavelengths ∧
     (runEvent p e s rng).1.hitsGraph = s.hitsGraph) ∧
    (countersOk s → countersOk (runEvent p e s rng).1) ∧
    (1 ≤ p.nSideCells → (∀ t ∈ s.photonTimes, 0 ≤ t ∧ t < p.signalLength) →
      countersOk s → hitsOk p s → hitsOk p (runEvent p e s rng).1) := by
  rcases hq1 : (if p.hasDcr then addDcrEvents p s rng else (s, rng)) with ⟨s1, rng1⟩
  have H1 : (s1.photonTimes = s.photonTimes ∧
      s1.photonWavelengths = s.photonWavelengths ∧ s1.hitsGraph = s.hitsGraph) ∧
      (countersOk s → countersOk s1) ∧
      (1 ≤ p.nSideCells → hitsOk p s → hitsOk p s1) := by
    by_cases hdcr : p.hasDcr = true
    · rw [if_pos hdcr] at hq1
      have hinv := dcrLoop_invariants p (1000000000 / p.dcr) (-100) s rng
      rw [show dcrLoop p (1000000000 / p.dcr) (-100) s rng = (s1, rng1)
        from hq1] at hinv
      exact hinv
    · rw [if_neg hdcr] at hq1
      injection hq1 with ha hb
      subst ha
      exact ⟨⟨rfl, rfl, rfl⟩, fun hc => hc, fun _ hall => hall⟩
  rcases hq2 : addPhotoelectrons p s1 rng1 with ⟨s2, rng2⟩
  have H2 : (s2.photonTimes = s1.photonTimes ∧
      s2.photonWavelengths = s1.photonWavelengths ∧ s2.hitsGraph = s1.hitsGraph) ∧
      (countersOk s1 → countersOk s2) ∧
      (1 ≤ p.nSideCells → (∀ t ∈ s1.photonTimes, 0 ≤ t ∧ t < p.signalLength) →
        hitsOk p s1 → hitsOk p s2) := by
    have hinv := peLoop_invariants p s1.photonTimes s1.photonWavelengths s1 rng1
    rw [show peLoop p s1.photonTimes s1.photonWavelengths s1 rng1 = (s2, rng2)
      from hq2] at hinv
    exact hinv
  rcases hq3 : (if p.hasXt then addXtEvents p e s2 rng2 else (s2, rng2)) with ⟨s3, rng3⟩
  have H3 : (s3.photonTimes = s2.photonTimes ∧
      s3.photonWavelengths = s2.photonWavelengths ∧ s3.hitsGraph = s2.hitsGraph) ∧
      (countersOk s2 → countersOk s3) ∧
      (countersOk s2 → hitsOk p s2 → hitsOk p s3) := by
    by_cases hxt : p.hasXt = true
    · rw [if_pos hxt] at hq3
      have hinv := xtOuter_invariants p e (rng2.length + 1) 0 s2 rng2
      rw [show xtOuter p e (rng2.length + 1) 0 s2 rng2 = (s3, rng3)
        from hq3] at hinv
      exact hinv
    · rw [if_neg hxt] at hq3
      injection hq3 with ha hb
      subst ha
      exact ⟨⟨rfl, rfl, rfl⟩, fun hc => hc, fun _ hall => hall⟩
  have H4 := calcAmps_invariants p e s3
  rcases hq5 : (if p.hasAp then
      addApEvents p e (calculateSignalAmplitudes p e s3) rng3 else
      (calculateSignalAmplitudes p e s3, rng3)) with ⟨s5, rng5⟩
  have H5 : (s5.photonTimes = (calculateSignalAmplitudes p e s3).photonTimes ∧
      s5.photonWavelengths = (calculateSignalAmplitudes p e s3).photonWavelengths ∧
      s5.hitsGraph = (calculateSignalAmplitudes p e s3).hitsGraph) ∧
      (countersOk (calculateSignalAmplitudes p e s3) → countersOk s5) ∧
      (countersOk (calculateSignalAmplitudes p e s3) →
        hitsOk p (calculateSignalAmplitudes p e s3) → hitsOk p s5) := by
    by_cases hap : p.hasAp = true
    · rw [if_pos hap] at hq5
      have hinv := apOuter_invariants p e (rng3.length + 1) 0
        (calculateSignalAmplitudes p e s3) rng3
      rw [show apOuter p e (rng3.length + 1) 0 (calculateSignalAmplitudes p e s3) rng3 =
        (s5, rng5) from hq5] at hinv
      exact hinv
    · rw [if_neg hap] at hq5
      injection hq5 with ha hb
      subst ha
      exact ⟨⟨rfl, rfl, rfl⟩, fun hc => hc, fun _ hall => hall⟩
  have hrun : runEvent p e s rng = generateSignal p e s5 rng5 := by
    unfold runEvent
    rw [hq1]
    dsimp only
    rw [hq2]
    dsimp only
    rw [hq3]
    dsimp only
    rw [hq5]
  rw [hrun]
  obtain ⟨hf1, hf2, hf3, hf4, _⟩ := generateSignal_fields p e s5 rng5
  refine ⟨⟨?_, ?_, ?_⟩, fun hc => ?_, fun hM hts hc hall => ?_⟩
  · rw [hf2, H5.1.1]
    exact (H4.1.1.trans H3.1.1).trans (H2.1.1.trans H1.1.1)
  · rw [hf3, H5.1.2.1]
    exact (H4.1.2.1.trans H3.1.2.1).trans (H2.1.2.1.trans H1.1.2.1)
  · rw [hf4, H5.1.2.2]
    exact (H4.1.2.2.trans H3.1.2.2).trans (H2.1.2.2.trans H1.1.2.2)
  · exact countersOk_generateSignal p e s5 rng5
      (H5.2.1 (H4.2.1 (H3.2.1 (H2.2.1 (H1.2.1 hc)))))
  · have hts1 : ∀ t ∈ s1.photonTimes, 0 ≤ t ∧ t < p.signalLength := by
      rw [H1.1.1]
      exact hts
    have hc1 : countersOk s1 := H1.2.1 hc
    have hc2 : countersOk s2 := H2.2.1 hc1
    have hc3 : countersOk s3 := H3.2.1 hc2
    have hall1 : hitsOk p s1 := H1.2.2 hM hall
    have hall2 : hitsOk p s2 := H2.2.2 hM hts1 hall1
    have hall3 : hitsOk p s3 := H3.2.2 hc2 hall2
    exact hitsOk_generateSignal e s5 rng5
      (H5.2.2 (H4.2.1 hc3) (H4.2.2 hall3))

theorem le_foldl_max (l : List ℚ) : ∀ a : ℚ, a ≤ l.foldl max a := by
  induction l with
  | nil => intro a; exact le_refl a
  | cons x t ih =>
    intro a
    rw [List.foldl_cons]
    exact le_trans (le_max_left a x) (ih (max a x))

theorem mem_le_foldl_max {x : ℚ} {l : List ℚ} (hx : x ∈ l) :
    ∀ a : ℚ, x ≤ l.foldl max a := by
  induction l with
  | nil => cases hx
  | cons y t ih =>
    intro a
    rw [List.foldl_cons]
    rcases List.mem_cons.mp hx with rfl | hx2
    · exact le_trans (le_max_right a x) (le_foldl_max t (max a x))
    · exact ih hx2 (max a y)

theorem le_listMax {x : ℚ} {l : List ℚ} (hx : x ∈ l) : x ≤ listMax l := by
  cases l with
  | nil => cases hx
  | cons a t =>
    rcases List.mem_cons.mp hx with rfl | hx2
    · exact le_foldl_max t x
    · exact mem_le_foldl_max hx2 a

theorem foldl_max_div {c : ℚ} (hc : 0 < c) :
    ∀ (l : List ℚ) (a : ℚ),
      (l.map (fun x => x / c)).foldl max (a / c) = (l.foldl max a) / c := by
  intro l
  induction l with
  | nil => intro a; rfl
  | cons x t ih =>
    intro a
    rw [List.map_cons, List.foldl_cons, List.foldl_cons,
      max_div_div_right hc.le a x]
    exact ih (max a x)

theorem listMax_map_div {l : List ℚ} (hl : l ≠ []) {c : ℚ} (hc : 0 < c) :
    listMax (l.map (fun x => x / c)) = listMax l / c := by
  cases l with
  | nil => exact absurd rfl hl
  | cons a t =>
    rw [List.map_cons]
    show (t.map (fun x => x / c)).foldl max (a / c) = (t.foldl max a) / c
    exact foldl_max_div hc t a

theorem simLoopNoWl_length (p : SiPMProperties) (e : ℚ → ℚ) :
    ∀ (ts : List (List ℚ)) (i : ℕ) (s : SensorState) (rng : Rng),
      (simLoopNoWl p e i ts s rng).1.length = ts.length := by
  intro ts
  induction ts with
  | nil => intro i s rng; rfl
  | cons a t ih =>
    intro i s rng
    rw [simLoopNoWl]
    simp only [List.length_cons]
    rw [ih]

theorem simLoopWl_length (p : SiPMProperties) (e : ℚ → ℚ) (allW : List (List ℚ)) :
    ∀ (ts : List (List ℚ)) (i : ℕ) (s : SensorState) (rng : Rng),
      (simLoopWl p e allW i ts s rng).1.length = ts.length := by
  intro ts
  induction ts with
  | nil => intro i s rng; rfl
  | cons a t ih =>
    intro i s rng
    rw [simLoopWl]
    simp only [List.length_cons]
    rw [ih]

/-! ### Concrete fixtures for the claim theorems -/

/-- A quiet baseline property set: 2×2 grid, uniform hits, no PDE, all
correlated noise off, `Δt = 2`, `L = 4` (so `N = 2`). -/
def pQuiet : SiPMProperties :=
  { nSideCells := 2, sampling := 2, signalLength := 4, risingTime := 1,
    fallingTimeFast := 2, fallingTimeSlow := 3, slowComponentFraction := 0,
    hasSlowComponent := false, hasDcr := false, hasXt := false, hasAp := false,
    dcr := 0, xt := 0, ap := 0, tauApFast := 1, tauApSlow := 1,
    apSlowFraction := 0, recoveryTime := 100, pdeType := .kNoPde, pde := 0,
    pdeSpectrum := [], hitDistribution := .kUniform, ccgv := 0, snrLinear := 0 }

/-- A stand-in for `exp` in concrete runs whose outcome does not depend on
the exponential's values. -/
def expZero : ℚ → ℚ := fun _ => 0

/-- A 4×4 cross-talk-enabled property set. -/
def pXtFix : SiPMProperties := { pQuiet with nSideCells := 4, hasXt := true, xt := 1 }

/-- A parent hit at cell (1,1) for the cross-talk loop. -/
def parentFix : SiPMHit := ⟨1, 1, 1, 1, .kPhotoelectron⟩

/-- A 10×10 set with `τ_rec = 100` for the recharge claims. -/
def pRec : SiPMProperties :=
  { pQuiet with nSideCells := 10, sampling := 1, signalLength := 1000 }

/-- Two hits on cell (0,0), the first at `t = 0`, the second at `t = 100`. -/
def stRec0 : SensorState :=
  { sensorInit with
      hits := [⟨0, 1, 0, 0, .kPhotoelectron⟩, ⟨100, 1, 0, 0, .kPhotoelectron⟩],
      nTotalHits := 2, nPe := 2 }

/-- Two hits on cell (0,0), the first at `t = 5`, the second at `t = 100`. -/
def stRec5 : SensorState :=
  { sensorInit with
      hits := [⟨5, 1, 0, 0, .kPhotoelectron⟩, ⟨100, 1, 0, 0, .kPhotoelectron⟩],
      nTotalHits := 2, nPe := 2 }

/-- `Δt = 100`, `L = 200`: a window shorter than the test photon's time. -/
def pShortWin : SiPMProperties := { pQuiet with sampling := 100, signalLength := 200 }

/-- `Δt = 1`, `L = 1`: a valid property set (`N = 1`, positive rise and fall
times) on which the normalized template degenerates. -/
def pOnePoint : SiPMProperties :=
  { pQuiet with sampling := 1, signalLength := 1, fallingTimeFast := 50 }

/-- `Δt = 1`, `L = 2` (`N = 2`), `τ_r = 1 < τ_ff = 2`. -/
def pTwoPoint : SiPMProperties := { pQuiet with sampling := 1, signalLength := 2 }

/-- Spectrum-PDE properties for the batch-driver claims. -/
def pSpec : SiPMProperties :=
  { pQuiet with pdeType := .kSpectrumPde, pdeSpectrum := [(400, 1/2)] }

/-- A two-event batch in which the second event has no wavelengths while the
batch's wavelength collection is non-empty. -/
def simMixed : SimState := ⟨[[1], [2]], [[400], []], []⟩

/-- A one-event batch with no wavelengths at all. -/
def simNoWl : SimState := ⟨[[1]], [], []⟩

/-! ### The claims -/

/-- C1: the spec says every one of the 8 neighbour offsets except `(0,0)` is
a possible outcome of the cross-talk rejection loop.  The code's loop
condition `rowAdd + colAdd == 0` also rejects `(-1,+1)` and `(+1,-1)`
(failing input: offset `(-1,+1)`).  The second conjunct runs the embedded
loop on a stream whose first drawn offset is `(-1,+1)`: the child is placed
with the next drawn offset `(0,+1)` instead, showing the diagonal was
rejected by the code. -/
theorem claim_C1 :
    (xtOffsetRejected (-1) 1 = true ∧ xtOffsetRejected 1 (-1) = true ∧
      ((-1 : ℤ), (1 : ℤ)) ≠ ((0 : ℤ), (0 : ℤ)) ∧
      ((1 : ℤ), (-1 : ℤ)) ≠ ((0 : ℤ), (0 : ℤ))) ∧
    (xtLoop pXtFix expZero parentFix [0, 2, 1, 2] (1/2) sensorInit).1.hits.map
      (fun h => (h.row, h.col)) = [(1, 2)] := by
  with_unfolding_all decide

/-- C2 (counterexample): a photoelectron inherits its photon's time with no
window check, so a photon at `t = 205` with `L = 200` yields a hit outside
`[0, L)` — the claim's invariant fails for photons outside the window. -/
theorem claim_C2_counterexample :
    ¬ (∀ h ∈ (runFullEvent pShortWin expZero [205] [] sensorInit
        [0, 0, 0, 0]).1.hits, hitOk pShortWin h) := by
  with_unfolding_all decide

/-- C2 (amended): after `resetState`, loading photons and `runEvent`, every
hit satisfies `0 ≤ time < L` and `0 ≤ row, col < nSideCells` for every
origin — provided the grid is non-degenerate (`nSideCells ≥ 1`) and every
input photon time lies in `[0, L)`; photoelectron and cross-talk hits take
photon times unchecked, so the window bound needs that hypothesis. -/
theorem claim_C2 (p : SiPMProperties) (e : ℚ → ℚ) (s : SensorState)
    (ts ws : List ℚ) (rng : Rng) (hM : 1 ≤ p.nSideCells)
    (hts : ∀ t ∈ ts, 0 ≤ t ∧ t < p.signalLength) :
    ∀ h ∈ (runFullEvent p e ts ws s rng).1.hits, hitOk p h := by
  have base : countersOk (addPhotonsWl (resetState s) ts ws) := ⟨rfl, rfl⟩
  have hall : hitsOk p (addPhotonsWl (resetState s) ts ws) := by
    intro h hmem
    simp [addPhotonsWl, resetState] at hmem
  exact (runEvent_invariants p e (addPhotonsWl (resetState s) ts ws) rng).2.2
    hM hts base hall

theorem claim_C2_witness :
    ((1 ≤ pQuiet.nSideCells) ∧ (∀ t ∈ ([1] : List ℚ), 0 ≤ t ∧ t < pQuiet.signalLength)) ∧
    (∀ h ∈ (runFullEvent pQuiet expZero [1] [] sensorInit
        [0, 0, 0, 0, 0, 0, 0, 0]).1.hits, hitOk pQuiet h) :=
  ⟨⟨by decide, by with_unfolding_all decide⟩,
    claim_C2 pQuiet expZero sensorInit [1] [] [0, 0, 0, 0, 0, 0, 0, 0]
      (by decide) (by with_unfolding_all decide)⟩

/-- C3: the claim says the recharge resolver gives every later hit on a
multiply-hit cell the amplitude `1 - exp(-Δt/τ_rec)` *also when the cell's
first hit is at `t = 0`*.  The code initializes `previousHitTime = 0` and
uses `previousHitTime == 0` as the "first occurrence" test, so a first hit
at time 0 leaves the sentinel at 0 and the second hit is treated as a first
occurrence again: its amplitude stays 1 (first conjunct, for every `e`).
The second conjunct shows the same cell with its first hit at `t = 5`
does get `1 - e(-95/100)`, isolating the `t = 0` failure. -/
theorem claim_C3 : ∀ e : ℚ → ℚ,
    (calculateSignalAmplitudes pRec e stRec0).hits.map SiPMHit.amplitude = [1, 1] ∧
    (calculateSignalAmplitudes pRec e stRec5).hits.map SiPMHit.amplitude =
      [1, 1 - e (-19/20)] :=
  fun e => ⟨by with_unfolding_all rfl, by with_unfolding_all rfl⟩

/-- C4 (counterexample): `runEvent` does not reset anything: running it
twice re-adds the stored photon, giving 2 hits and `nTotalHits = 2`, while
`resetState` followed by `runEvent` (which clears the photon list) gives 0 —
so "runEvent twice equals resetState-then-runEvent" is false. -/
theorem claim_C4_counterexample :
    ¬ (let s0 := addPhotonsWl (resetState sensorInit) [1] []
       let r1 := runEvent pQuiet expZero s0 [0, 0, 0, 0, 0, 0, 0, 0, 0, 0]
       let r2 := runEvent pQuiet expZero r1.1 r1.2
       let rr := runEvent pQuiet expZero (resetState r1.1) r1.2
       r2.1.nTotalHits = rr.1.nTotalHits ∧ r2.1.hits.length = rr.1.hits.length) := by
  with_unfolding_all decide

/-- C4 (amended): `runEvent` performs no reset, and hits and counters
accumulate across bare `runEvent` calls.  What does hold: a
`resetState` → load photons → `runEvent` cycle erases every dependence on
the prior state except the never-written hits-graph, so two states with
equal hits-graphs produce identical results — reset-preceded runs do not
accumulate anything. -/
theorem claim_C4 (p : SiPMProperties) (e : ℚ → ℚ) (ts ws : List ℚ) (rng : Rng)
    (s1 s2 : SensorState) (hg : s1.hitsGraph = s2.hitsGraph) :
    runEvent p e (addPhotonsWl (resetState s1) ts ws) rng =
    runEvent p e (addPhotonsWl (resetState s2) ts ws) rng := by
  have hst : addPhotonsWl (resetState s1) ts ws = addPhotonsWl (resetState s2) ts ws := by
    show (⟨ts, ws, [], s1.hitsGraph, 0, 0, 0, 0, 0, []⟩ : SensorState) =
      ⟨ts, ws, [], s2.hitsGraph, 0, 0, 0, 0, 0, []⟩
    rw [hg]
  rw [hst]

theorem claim_C4_witness :
    (sensorInit.hitsGraph = (addPhoton sensorInit 7).hitsGraph) ∧
    runEvent pQuiet expZero (addPhotonsWl (resetState sensorInit) [1] []) [0, 0] =
      runEvent pQuiet expZero
        (addPhotonsWl (resetState (addPhoton sensorInit 7)) [1] []) [0, 0] :=
  ⟨rfl, claim_C4 pQuiet expZero [1] [] [0, 0] sensorInit (addPhoton sensorInit 7) rfl⟩

/-- C5: after `resetState`, loading photons and `runEvent`,
`nTotalHits = nPe + nDcr + nXt + nAp` and `nTotalHits` equals the length of
the hit buffer, for every property set, photon list and PRNG stream — each
generation pass increments `nTotalHits` together with its own counter at
every append. -/
theorem claim_C5 (p : SiPMProperties) (e : ℚ → ℚ) (s : SensorState)
    (ts ws : List ℚ) (rng : Rng) :
    (runFullEvent p e ts ws s rng).1.nTotalHits =
      (runFullEvent p e ts ws s rng).1.nPe + (runFullEvent p e ts ws s rng).1.nDcr +
      (runFullEvent p e ts ws s rng).1.nXt + (runFullEvent p e ts ws s rng).1.nAp ∧
    (runFullEvent p e ts ws s rng).1.nTotalHits =
      (runFullEvent p e ts ws s rng).1.hits.length :=
  (runEvent_invariants p e (addPhotonsWl (resetState s) ts ws) rng).2.1 ⟨rfl, rfl⟩

/-- C7: the embedded event is a pure function of the properties, the
exponential, the photon lists and the PRNG stream, so two freshly
constructed sensors given identical inputs and identical seeds produce
identical signals, hit buffers and counters (full state equality). -/
theorem claim_C7 (p : SiPMProperties) (e : ℚ → ℚ) (ts ws : List ℚ)
    (rng1 rng2 : Rng) (hseed : rng1 = rng2) :
    runFullEvent p e ts ws sensorInit rng1 = runFullEvent p e ts ws sensorInit rng2 := by
  rw [hseed]

theorem claim_C7_witness :
    (([0, 0, 0, 0] : Rng) = [0, 0, 0, 0]) ∧
    runFullEvent pQuiet expZero [1] [] sensorInit [0, 0, 0, 0] =
      runFullEvent pQuiet expZero [1] [] sensorInit [0, 0, 0, 0] :=
  ⟨rfl, claim_C7 pQuiet expZero [1] [] [0, 0, 0, 0] [0, 0, 0, 0] rfl⟩

/-- C9: the spec says `hitsGraph()` returns one parent index per hit.  In
this revision `m_HitsGraph` is never written by any pass (and not even
cleared by `resetState`), so after an event with one hit the hits-graph is
still empty — the lengths differ (failing input: one photon at `t = 1`,
PDE none, noise off). -/
theorem claim_C9 :
    (runFullEvent pQuiet expZero [1] [] sensorInit
      [0, 0, 0, 0, 0, 0, 0, 0]).1.hits.length = 1 ∧
    (runFullEvent pQuiet expZero [1] [] sensorInit
      [0, 0, 0, 0, 0, 0, 0, 0]).1.hitsGraph = [] := by
  with_unfolding_all decide

/-- C10: `addPhotons(times)` replaces the stored photon-time list with its
argument (discarding photons added before) and leaves the stored wavelength
list unchanged; `resetState` clears the wavelength list. -/
theorem claim_C10 (s : SensorState) (ts : List ℚ) :
    (addPhotons s ts).photonTimes = ts ∧
    (addPhotons s ts).photonWavelengths = s.photonWavelengths ∧
    (resetState s).photonWavelengths = [] :=
  ⟨rfl, rfl, rfl⟩

/-- The template map with its local abbreviations unfolded. -/
theorem signalShapeRaw_eq (p : SiPMProperties) (e : ℚ → ℚ) :
    signalShapeRaw p e = (List.range (nSignalPoints p)).map (fun i : ℕ =>
      if p.hasSlowComponent then
        (1 - p.slowComponentFraction) * e (-(i : ℚ) / (p.fallingTimeFast / p.sampling)) +
          p.slowComponentFraction * e (-(i : ℚ) / (p.fallingTimeSlow / p.sampling)) -
          e (-(i : ℚ) / (p.risingTime / p.sampling))
      else
        e (-(i : ℚ) / (p.fallingTimeFast / p.sampling)) -
          e (-(i : ℚ) / (p.risingTime / p.sampling))) := rfl

/-- C6 (counterexample): `N = 1` with positive rise and fall times is a
valid property set for the claim, but then the raw template is the single
sample `[0]`, its maximum is 0, and the normalization divides by that zero
maximum: `max(template) ≠ 1` (the C++ produces `0/0 = NaN`, which also
fails `max == 1`; the exact embedding yields `0/0 = 0`). -/
theorem claim_C6_counterexample :
    (1 ≤ nSignalPoints pOnePoint ∧ 0 < pOnePoint.risingTime ∧
      0 < pOnePoint.fallingTimeFast) ∧
    listMax (signalShape pOnePoint (fun q => 1 + q)) ≠ 1 := by
  with_unfolding_all decide

/-- C6 (amended): the claim's conclusion holds once the template actually
has a positive sample: for `N ≥ 2`, positive sampling period, and a rise
time strictly below the fall time(s) (with the slow fraction in `[0,1]` in
the three-exponential mode), and any strictly monotone exponential, the
normalized template has maximum exactly 1 and its first sample is exactly 0
in both modes.  For `N = 1` (allowed by the claim) the maximum is not 1. -/
theorem claim_C6 (p : SiPMProperties) (e : ℚ → ℚ) (he : StrictMono e)
    (hN : 2 ≤ nSignalPoints p) (hsamp : 0 < p.sampling) (htr : 0 < p.risingTime)
    (hfall : p.risingTime < p.fallingTimeFast)
    (hslow : p.hasSlowComponent = true →
      p.risingTime < p.fallingTimeSlow ∧ 0 ≤ p.slowComponentFraction ∧
        p.slowComponentFraction ≤ 1) :
    listMax (signalShape p e) = 1 ∧ (signalShape p e).head? = some 0 := by
  have htr' : 0 < p.risingTime / p.sampling := div_pos htr hsamp
  have hCA : e (-(1 : ℚ) / (p.risingTime / p.sampling)) <
      e (-(1 : ℚ) / (p.fallingTimeFast / p.sampling)) := by
    apply he
    rw [neg_div, neg_div]
    exact neg_lt_neg (one_div_lt_one_div_of_lt htr'
      ((div_lt_div_iff_of_pos_right hsamp).mpr hfall))
  have hsample1 : (if p.hasSlowComponent then
      (1 - p.slowComponentFraction) * e (-(1 : ℚ) / (p.fallingTimeFast / p.sampling)) +
        p.slowComponentFraction * e (-(1 : ℚ) / (p.fallingTimeSlow / p.sampling)) -
        e (-(1 : ℚ) / (p.risingTime / p.sampling))
    else
      e (-(1 : ℚ) / (p.fallingTimeFast / p.sampling)) -
        e (-(1 : ℚ) / (p.risingTime / p.sampling))) ∈ signalShapeRaw p e := by
    rw [signalShapeRaw_eq]
    have h1N : (1 : ℕ) ∈ List.range (nSignalPoints p) := List.mem_range.mpr (by omega)
    refine List.mem_map.mpr ⟨1, h1N, ?_⟩
    simp only [Nat.cast_one]
  have hpos : 0 < (if p.hasSlowComponent then
      (1 - p.slowComponentFraction) * e (-(1 : ℚ) / (p.fallingTimeFast / p.sampling)) +
        p.slowComponentFraction * e (-(1 : ℚ) / (p.fallingTimeSlow / p.sampling)) -
        e (-(1 : ℚ) / (p.risingTime / p.sampling))
    else
      e (-(1 : ℚ) / (p.fallingTimeFast / p.sampling)) -
        e (-(1 : ℚ) / (p.risingTime / p.sampling))) := by
    by_cases hs : p.hasSlowComponent = true
    · rw [if_pos hs]
      obtain ⟨hts, hslf0, hslf1⟩ := hslow hs
      have hCB : e (-(1 : ℚ) / (p.risingTime / p.sampling)) <
          e (-(1 : ℚ) / (p.fallingTimeSlow / p.sampling)) := by
        apply he
        rw [neg_div, neg_div]
        exact neg_lt_neg (one_div_lt_one_div_of_lt htr'
          ((div_lt_div_iff_of_pos_right hsamp).mpr hts))
      have key : 0 < (1 - p.slowComponentFraction) *
          (e (-(1 : ℚ) / (p.fallingTimeFast / p.sampling)) -
            e (-(1 : ℚ) / (p.risingTime / p.sampling))) +
          p.slowComponentFraction *
          (e (-(1 : ℚ) / (p.fallingTimeSlow / p.sampling)) -
            e (-(1 : ℚ) / (p.risingTime / p.sampling))) := by
        rcases eq_or_lt_of_le hslf0 with h0 | h0
        · rw [← h0]
          simpa using sub_pos.mpr hCA
        · exact add_pos_of_nonneg_of_pos
            (mul_nonneg (by linarith) (by linarith))
            (mul_pos h0 (by linarith))
      linarith [key, (by ring : (1 - p.slowComponentFraction) *
          (e (-(1 : ℚ) / (p.fallingTimeFast / p.sampling)) -
            e (-(1 : ℚ) / (p.risingTime / p.sampling))) +
          p.slowComponentFraction *
          (e (-(1 : ℚ) / (p.fallingTimeSlow / p.sampling)) -
            e (-(1 : ℚ) / (p.risingTime / p.sampling))) =
          (1 - p.slowComponentFraction) * e (-(1 : ℚ) / (p.fallingTimeFast / p.sampling)) +
            p.slowComponentFraction * e (-(1 : ℚ) / (p.fallingTimeSlow / p.sampling)) -
            e (-(1 : ℚ) / (p.risingTime / p.sampling)))]
    · rw [if_neg hs]
      exact sub_pos.mpr hCA
  have hrawne : signalShapeRaw p e ≠ [] := List.ne_nil_of_mem hsample1
  have hpeak : 0 < listMax (signalShapeRaw p e) :=
    lt_of_lt_of_le hpos (le_listMax hsample1)
  have hshape : signalShape p e =
      (signalShapeRaw p e).map (fun x => x / listMax (signalShapeRaw p e)) := rfl
  constructor
  · rw [hshape, listMax_map_div hrawne hpeak]
    exact div_self (ne_of_gt hpeak)
  · have hhead : (signalShapeRaw p e).head? = some 0 := by
      rw [signalShapeRaw_eq, List.head?_map]
      obtain ⟨m, hm⟩ : ∃ m, nSignalPoints p = m + 1 := ⟨nSignalPoints p - 1, by omega⟩
      rw [hm, List.range_succ_eq_map]
      show some _ = some 0
      congr 1
      dsimp only
      by_cases hs : p.hasSlowComponent = true
      · rw [if_pos hs]
        simp only [Nat.cast_zero, neg_zero, zero_div]
        ring
      · rw [if_neg hs]
        simp only [Nat.cast_zero, neg_zero, zero_div]
        ring
    rw [hshape, List.head?_map, hhead]
    show some _ = some 0
    congr 1
    exact zero_div _

theorem claim_C6_witness :
    (StrictMono (id : ℚ → ℚ) ∧ 2 ≤ nSignalPoints pTwoPoint ∧ 0 < pTwoPoint.sampling ∧
      0 < pTwoPoint.risingTime ∧ pTwoPoint.risingTime < pTwoPoint.fallingTimeFast) ∧
    (listMax (signalShape pTwoPoint id) = 1 ∧ (signalShape pTwoPoint id).head? = some 0) :=
  ⟨⟨strictMono_id, by with_unfolding_all decide⟩,
    claim_C6 pTwoPoint id strictMono_id (by with_unfolding_all decide)
      (by with_unfolding_all decide) (by with_unfolding_all decide)
      (by with_unfolding_all decide)
      (fun h => absurd h (by decide))⟩

/-- C8 (counterexample): the driver's wavelength check is batch-global
(`m_Wavelengths.size() != 0`), not per-event.  With spectrum PDE configured
and a batch whose wavelength collection is non-empty but whose second event
has no wavelengths, the driver neither downgrades the PDE mode nor emits
the warning — contradicting "downgrades that event's PDE mode … and records
a warning". -/
theorem claim_C8_counterexample :
    ((simMixed.wavelengths.getD 1 [] = []) ∧ simMixed.times.length = 2) ∧
    (runSimulaion pSpec expZero simMixed sensorInit
      [0, 0, 0, 0, 0, 0, 0, 0, 0, 0, 0, 0, 0, 0, 0, 0]).warned = false ∧
    (runSimulaion pSpec expZero simMixed sensorInit
      [0, 0, 0, 0, 0, 0, 0, 0, 0, 0, 0, 0, 0, 0, 0, 0]).props.pdeType =
      PdeType.kSpectrumPde := by
  with_unfolding_all decide

/-- C8 (amended): the downgrade is batch-level, not per-event.  With
spectrum PDE configured: when the batch's wavelength collection is entirely
empty the driver downgrades the sensor's PDE type to None, emits the
diagnostic once, and still produces one result record per event; when the
collection is non-empty no downgrade or warning happens and every event is
run through the spectrum branch, again with one result per event. -/
theorem claim_C8 (p : SiPMProperties) (e : ℚ → ℚ) (sim : SimState)
    (s : SensorState) (rng : Rng) (hspec : p.pdeType = PdeType.kSpectrumPde) :
    (sim.wavelengths = [] →
      (runSimulaion p e sim s rng).warned = true ∧
      (runSimulaion p e sim s rng).props.pdeType = PdeType.kNoPde ∧
      (runSimulaion p e sim s rng).sim.results.length =
        sim.results.length + sim.times.length) ∧
    (sim.wavelengths ≠ [] →
      (runSimulaion p e sim s rng).warned = false ∧
      (runSimulaion p e sim s rng).props = p ∧
      (runSimulaion p e sim s rng).sim.results.length =
        sim.results.length + sim.times.length) := by
  constructor
  · intro hw
    have hq : runSimulaion p e sim s rng =
        ⟨{ sim with results := sim.results ++
            (simLoopNoWl { p with pdeType := .kNoPde } e 0 sim.times s rng).1 },
          { p with pdeType := .kNoPde }, true,
          (simLoopNoWl { p with pdeType := .kNoPde } e 0 sim.times s rng).2.1,
          (simLoopNoWl { p with pdeType := .kNoPde } e 0 sim.times s rng).2.2⟩ := by
      unfold runSimulaion
      rw [if_neg (not_not_intro hspec), if_neg (by simp [hw])]
    rw [hq]
    refine ⟨rfl, rfl, ?_⟩
    show (sim.results ++ _).length = sim.results.length + sim.times.length
    rw [List.length_append, simLoopNoWl_length]
  · intro hw
    have hq : runSimulaion p e sim s rng =
        ⟨{ sim with results := sim.results ++
            (simLoopWl p e sim.wavelengths 0 sim.times s rng).1 },
          p, false,
          (simLoopWl p e sim.wavelengths 0 sim.times s rng).2.1,
          (simLoopWl p e sim.wavelengths 0 sim.times s rng).2.2⟩ := by
      unfold runSimulaion
      rw [if_neg (not_not_intro hspec), if_pos hw]
    rw [hq]
    refine ⟨rfl, rfl, ?_⟩
    show (sim.results ++ _).length = sim.results.length + sim.times.length
    rw [List.length_append, simLoopWl_length]

theorem claim_C8_witness :
    (pSpec.pdeType = PdeType.kSpectrumPde) ∧
    ((simNoWl.wavelengths = [] →
      (runSimulaion pSpec expZero simNoWl sensorInit []).warned = true ∧
      (runSimulaion pSpec expZero simNoWl sensorInit []).props.pdeType = PdeType.kNoPde ∧
      (runSimulaion pSpec expZero simNoWl sensorInit []).sim.results.length =
        simNoWl.results.length + simNoWl.times.length) ∧
    (simNoWl.wavelengths ≠ [] →
      (runSimulaion pSpec expZero simNoWl sensorInit []).warned = false ∧
      (runSimulaion pSpec expZero simNoWl sensorInit []).props = pSpec ∧
      (runSimulaion pSpec expZero simNoWl sensorInit []).sim.results.length =
        simNoWl.results.length + simNoWl.times.length)) :=
  ⟨rfl, claim_C8 pSpec expZero simNoWl sensorInit [] rfl⟩

end SimSiPM
